import Mathlib

/-!
Verification of the agent runtime (comfyui-agent).

Shallow embedding of the application core in Lean 4:
message/content-block data model, token estimation and context
compaction (`application/context_manager.py`), prompt assembly
(`application/prompt_builder.py`), tool execution
(`application/tool_executor.py`), the agent loop
(`application/agent_loop.py`), the LLM retry loop
(`infrastructure/clients/llm_client.py`) and the event bus
(`infrastructure/event_bus.py`).

Python dicts that the code reads and writes are embedded as records of
exactly the keys the program touches; machine integers are `Nat`/`Int`;
code that can raise inside the modelled fragment returns `Except`.
-/

namespace ComfyAgent

/-! ## Data model: messages and content blocks

A content block is a Python dict.  The program only ever reads or writes
the keys `type`, `text`, `content`, `input`, `id`, `name`, `tool_use_id`
and `is_error`; it is embedded as a record of those keys, each optional
(absent key = `none`).  The values of `text`, `content`, `id`, `name`,
`tool_use_id` are strings wherever this program constructs or inspects
them (`message_builder.py`); `input` is a JSON value that the code only
ever passes through `json.dumps`, so it is carried here already dumped
to its JSON string. -/

structure Block where
  type : Option String := none
  text : Option String := none
  content : Option String := none
  inputDump : Option String := none
  id : Option String := none
  name : Option String := none
  tool_use_id : Option String := none
  is_error : Option Bool := none
deriving DecidableEq, Repr

/-- An element of a message's content list: a plain string or a block dict
(`context_manager._content_text` handles exactly these two cases). -/
inductive ContentItem where
  | str (s : String)
  | dict (b : Block)
deriving DecidableEq, Repr

/-- A message's `content` field: a plain string, a list of blocks, or some
other value (rendered through `str(content)` by `_content_text`). -/
inductive Content where
  | str (s : String)
  | blocks (items : List ContentItem)
  | other (s : String)
deriving DecidableEq, Repr

/-- A message dict; the program reads the keys `role` and `content`. -/
structure Msg where
  role : Option String := none
  content : Option Content := none
deriving DecidableEq, Repr

/-! ## Token estimation (`context_manager.py` lines 49-81) -/

/-- Python's `str.startswith`: character-wise prefix test. -/
def strStartsWith (s p : String) : Bool :=
  p.data.isPrefixOf s.data

/-- `estimate_tokens`: `max(1, len(text) // 4)` — floor division. -/
def estimate_tokens (text : String) : Nat :=
  max 1 (text.length / 4)

/-- `json.dumps(block.get("input", ""))`: the dumped input when the key is
present, `json.dumps("") = "\"\""` when absent. -/
def blockInputText (b : Block) : String :=
  match b.inputDump with
  | some s => s
  | none => "\"\""

/-- The string contributed by one dict block in `_content_text`:
`block.get("text","") or block.get("content","") or json.dumps(block.get("input",""))`
(Python `or` takes the first non-empty string). -/
def blockText (b : Block) : String :=
  let t := (b.text).getD ""
  if t ≠ "" then t
  else
    let c := (b.content).getD ""
    if c ≠ "" then c
    else blockInputText b

/-- One entry of the `parts` list in `_content_text`. -/
def itemText : ContentItem → String
  | .str s => s
  | .dict b => blockText b

/-- `_content_text`: string content verbatim, block lists joined with a
single space, anything else through `str`. -/
def content_text : Content → String
  | .str s => s
  | .blocks items => String.intercalate " " (items.map itemText)
  | .other s => s

/-- `msg.get("content", "")`. -/
def msgContent (m : Msg) : Content :=
  m.content.getD (.str "")

/-- `estimate_messages_tokens`: the loop `total += 4; total += estimate_tokens(...)`
accumulated over the list. -/
def estimate_messages_tokens : List Msg → Nat
  | [] => 0
  | m :: rest =>
      (4 + estimate_tokens (content_text (msgContent m))) + estimate_messages_tokens rest

/-! ## Context-window resolution and history budget
(`context_manager.py` lines 20-42 and 106-128) -/

/-- `_MODEL_CONTEXT_SIZES`. -/
def modelContextSizes : List (String × Nat) :=
  [("claude-opus-4-6", 200000),
   ("claude-sonnet-4-5-20250929", 200000),
   ("claude-haiku-4-5-20251001", 200000),
   ("claude-sonnet-4-20250514", 200000),
   ("claude-3-5-sonnet-20241022", 200000),
   ("claude-3-5-haiku-20241022", 200000),
   ("claude-3-opus-20240229", 200000),
   ("claude-3-sonnet-20240229", 200000),
   ("claude-3-haiku-20240307", 200000)]

/-- `_resolve_context_size`: exact lookup, then prefix fallback, default 200000. -/
def resolve_context_size (model : String) : Nat :=
  match modelContextSizes.find? (fun kv => kv.fst == model) with
  | some kv => kv.snd
  | none =>
      match modelContextSizes.find? (fun kv => strStartsWith model kv.fst) with
      | some kv => kv.snd
      | none => 200000

/-- The `ContextManager.__init__` budget computation:
`context_size - 2000 - 3000 - max_output - 5000` (a Python int, possibly
negative, hence `Int`). -/
def history_budget (contextSize maxOutput : Nat) : Int :=
  (contextSize : Int) - 2000 - 3000 - (maxOutput : Int) - 5000

/-- The budget of a default-configured manager
(`ContextManager(model="")`, `max_output_tokens=8192`): 181808. -/
def default_history_budget : Int :=
  history_budget (resolve_context_size "") 8192

/-! ## Stage 1: tool-result truncation (`_compact_tool_results`) -/

/-- The replacement text: `block["content"][:200] + "\n\n... [truncated, was N chars]"`. -/
def truncatedContent (c : String) : String :=
  c.take 200 ++ "\n\n... [truncated, was " ++ toString c.length ++ " chars]"

/-- Process one block of an old message: oversized string-content
`tool_result` blocks are replaced by a fresh dict with truncated content
(`{**block, "content": ...}`); everything else is kept. Second component:
did this block change. -/
def compactItem (maxChars : Nat) : ContentItem → ContentItem × Bool
  | .dict b =>
      match b.content with
      | some c =>
          if b.type = some "tool_result" ∧ maxChars < c.length then
            (.dict { b with content := some (truncatedContent c) }, true)
          else (.dict b, false)
      | none => (.dict b, false)
  | it => (it, false)

/-- The `new_blocks` loop: rebuilt block list plus the `changed` flag. -/
def compactBlocks (maxChars : Nat) (items : List ContentItem) : List ContentItem × Bool :=
  items.foldr
    (fun it acc =>
      let r := compactItem maxChars it
      (r.fst :: acc.fst, r.snd || acc.snd))
    ([], false)

/-- Process one old message: only list-valued contents are rebuilt and only
when some block changed (`{**msg, "content": new_blocks}`). -/
def compactMsg (maxChars : Nat) (m : Msg) : Msg :=
  match m.content with
  | some (.blocks items) =>
      let r := compactBlocks maxChars items
      if r.snd then { m with content := some (.blocks r.fst) } else m
  | _ => m

/-- `_compact_tool_results`: messages in the last `keep_recent` positions
(`i >= cutoff`, `cutoff = max(0, len - keep_recent)` = truncated
subtraction) pass through unchanged; older ones go through `compactMsg`. -/
def compact_tool_results (messages : List Msg) (keep_recent max_result_chars : Nat) : List Msg :=
  let cutoff := messages.length - keep_recent
  messages.enum.map (fun p => if cutoff ≤ p.fst then p.snd else compactMsg max_result_chars p.snd)

/-! ## Stage 2: emergency trim (`_emergency_trim`)

The scan walks the list from the end looking for the last plain user
message.  On a user message whose content is a non-empty list the code
evaluates `content[0].get("type")`; when `content[0]` is a plain string
that attribute access raises `AttributeError`, so the embedding returns
`Except`. -/

/-- Outcome of examining one message during the backwards scan. -/
inductive ScanRes where
  | take
  | skip
  | crash
deriving DecidableEq, Repr

/-- One step of the `_emergency_trim` scan: `take` when the message is the
plain user message the scan stops at, `crash` when Python would raise
(`content[0]` is a plain string), `skip` otherwise. -/
def userMsgScan (m : Msg) : ScanRes :=
  if m.role ≠ some "user" then .skip
  else
    match m.content with
    | some (.str _) => .take
    | some (.blocks []) => .skip
    | some (.blocks (item :: _)) =>
        match item with
        | .dict b => if b.type ≠ some "tool_result" then .take else .skip
        | .str _ => .crash
    | some (.other _) => .skip
    | none => .skip

/-- Backwards scan of `_emergency_trim`: examines the messages from the
last towards the first (the recursive call handles the later part of the
list first); returns `some suffix` for the `return messages[i:]` exit,
`none` when no message matched, and an error when Python would raise. -/
def emTrimGo : List Msg → Except Unit (Option (List Msg))
  | [] => .ok none
  | m :: rest =>
      match emTrimGo rest with
      | .error e => .error e
      | .ok (some suf) => .ok (some suf)
      | .ok none =>
          match userMsgScan m with
          | .take => .ok (some (m :: rest))
          | .skip => .ok none
          | .crash => .error ()

/-- `_emergency_trim`: the suffix from the last plain user message, else the
last two messages (`messages[-2:]`, the whole list when shorter). -/
def emergency_trim (messages : List Msg) : Except Unit (List Msg) :=
  match emTrimGo messages with
  | .error e => .error e
  | .ok (some suf) => .ok suf
  | .ok none => .ok (messages.drop (messages.length - 2))

/-- `ContextManager.prepare_messages` for a manager with history budget
`hb`: return unchanged when under budget, else truncate old tool results
(`keep_recent=6`, `max_result_chars=500`), else emergency-trim. -/
def prepare_messages (hb : Int) (messages : List Msg) : Except Unit (List Msg) :=
  if (estimate_messages_tokens messages : Int) ≤ hb then .ok messages
  else
    let compacted := compact_tool_results messages 6 500
    if (estimate_messages_tokens compacted : Int) ≤ hb then .ok compacted
    else emergency_trim compacted

example : estimate_tokens "aaaaa" = 1 := by decide
example : default_history_budget = 181808 := by decide
example : estimate_messages_tokens [{ role := some "user", content := some (.str "hello") }] = 5 := by decide

/-! ## Claim C3: token-estimation formula -/

/-- Modelled from the spec's words (claim C3), for comparison with the
source's `estimate_tokens`: the ceiling of `len(text)/4`, minimum 1. -/
def spec_ceil_estimate (text : String) : Nat :=
  max 1 ((text.length + 3) / 4)

/-- Claim C3, counterexample: the source uses floor division, so at the
five-character string "aaaaa" the estimate is 1 while the ceiling of 5/4
(with minimum 1) is 2. -/
theorem c3_counterexample :
    estimate_tokens "aaaaa" = 1 ∧ spec_ceil_estimate "aaaaa" = 2 ∧
    estimate_tokens "aaaaa" ≠ spec_ceil_estimate "aaaaa" := by
  decide

/-- Claim C3 (amended): for every string the token estimate is the floor of
`len(t)/4` with a minimum of 1 (characterised arithmetically: the estimate
is the unique `q ≥ 1` with `4q ≤ max 4 len < 4q + 4`), and the per-message
estimate adds a constant role cost of 4 tokens to the estimate of the
message's content text. -/
theorem c3_floor_estimate_and_role_cost :
    (∀ t : String,
        4 * estimate_tokens t ≤ max 4 t.length ∧
        max 4 t.length < 4 * estimate_tokens t + 4)
    ∧ (∀ (m : Msg) (rest : List Msg),
        estimate_messages_tokens (m :: rest) =
          (4 + estimate_tokens (content_text (msgContent m))) + estimate_messages_tokens rest) := by
  constructor
  · intro t
    have h := Nat.div_add_mod t.length 4
    have h2 : t.length % 4 < 4 := Nat.mod_lt _ (by norm_num)
    unfold estimate_tokens
    omega
  · intro m rest
    rfl

/-! ## Claim C1: budget safety of `prepare_messages` -/

/-- A plain user message. -/
def c1_user : Msg := { role := some "user", content := some (.str "hi") }

/-- A short assistant message, repeated many times below. -/
def c1_filler : Msg := { role := some "assistant", content := some (.str "ok") }

/-- Counterexample input: one plain user message followed by 40000 short
assistant messages — 200005 estimated tokens, over the default budget. -/
def c1_messages : List Msg := c1_user :: List.replicate 40000 c1_filler

theorem estimate_replicate_filler (n : Nat) :
    estimate_messages_tokens (List.replicate n c1_filler) = 5 * n := by
  induction n with
  | zero => rfl
  | succ k ih =>
      have h1 : estimate_tokens (content_text (msgContent c1_filler)) = 1 := rfl
      simp only [List.replicate_succ, estimate_messages_tokens, ih, h1]
      ring

theorem c1_est_aux (L : List Msg) (h : estimate_messages_tokens L = 200000) :
    estimate_messages_tokens (c1_user :: L) = 200005 := by
  have h1 : estimate_tokens (content_text (msgContent c1_user)) = 1 := rfl
  simp only [estimate_messages_tokens, h1, h]

theorem estimate_c1_messages : estimate_messages_tokens c1_messages = 200005 :=
  c1_est_aux _ ((estimate_replicate_filler 40000).trans (by norm_num))

/-- `_compact_tool_results` keeps every message that `compactMsg` keeps. -/
theorem compact_eq_self (messages : List Msg) (k c : Nat)
    (h : ∀ m ∈ messages, compactMsg c m = m) :
    compact_tool_results messages k c = messages := by
  unfold compact_tool_results
  have h2 : ∀ p ∈ messages.enum,
      (if messages.length - k ≤ p.fst then p.snd else compactMsg c p.snd) = Prod.snd p := by
    intro p hp
    split
    · rfl
    · exact h p.snd (List.snd_mem_of_mem_enum hp)
  rw [List.map_congr_left h2, List.enum_map_snd]

/-- Lists in which every message is skipped produce no trim point. -/
theorem emTrimGo_skip_all (l : List Msg) (h : ∀ m ∈ l, userMsgScan m = .skip) :
    emTrimGo l = .ok none := by
  induction l with
  | nil => rfl
  | cons m rest ih =>
      have hrest := ih (fun x hx => h x (List.mem_cons_of_mem m hx))
      have hm := h m (List.mem_cons_self m rest)
      simp [emTrimGo, hrest, hm]

theorem c1_trim_aux (L : List Msg) (h : emTrimGo L = .ok none) :
    emTrimGo (c1_user :: L) = .ok (some (c1_user :: L)) := by
  simp only [emTrimGo, h]
  rfl

theorem emTrimGo_c1 : emTrimGo c1_messages = .ok (some c1_messages) :=
  c1_trim_aux _ (emTrimGo_skip_all _ (fun m hm => by rw [List.eq_of_mem_replicate hm]; rfl))

/-- Claim C1, counterexample: on one plain user message followed by 40000
short assistant messages, `prepare_messages` (default-configured manager,
history budget 181808) returns the input unchanged — an output of 40001
messages estimated at 200005 tokens, violating both disjuncts of the
claim. -/
theorem c1_prep_aux (msgs : List Msg)
    (hest : estimate_messages_tokens msgs = 200005)
    (hcomp : compact_tool_results msgs 6 500 = msgs)
    (htrim : emTrimGo msgs = .ok (some msgs)) :
    prepare_messages default_history_budget msgs = .ok msgs := by
  have hb : default_history_budget = 181808 := by decide
  simp only [prepare_messages, hcomp, hest, hb]
  norm_num
  simp only [emergency_trim, htrim]

theorem c1_counterexample :
    prepare_messages default_history_budget c1_messages = .ok c1_messages ∧
    ¬ ((estimate_messages_tokens c1_messages : Int) ≤ default_history_budget
        ∨ c1_messages.length ≤ 2) := by
  have hb : default_history_budget = 181808 := by decide
  have hcomp : compact_tool_results c1_messages 6 500 = c1_messages := by
    apply compact_eq_self
    intro m hm
    rcases List.mem_cons.mp hm with h | h
    · rw [h]; rfl
    · rw [List.eq_of_mem_replicate h]; rfl
  have hlen : c1_messages.length = 40001 := by
    show (c1_user :: List.replicate 40000 c1_filler).length = 40001
    rw [List.length_cons, List.length_replicate]
  refine ⟨c1_prep_aux c1_messages estimate_c1_messages hcomp emTrimGo_c1, ?_⟩
  rw [estimate_c1_messages, hb, hlen]
  norm_num

/-- When the scan finds nothing, every message was skipped. -/
theorem emTrimGo_none_spec (l : List Msg) (h : emTrimGo l = .ok none) :
    ∀ x ∈ l, userMsgScan x = .skip := by
  induction l with
  | nil => intro x hx; cases hx
  | cons m rest ih =>
      simp only [emTrimGo] at h
      rcases h1 : emTrimGo rest with e | o
      all_goals rw [h1] at h
      · simp at h
      · cases o with
        | some s => simp at h
        | none =>
            cases h2 : userMsgScan m with
            | take => rw [h2] at h; simp at h
            | crash => rw [h2] at h; simp at h
            | skip =>
                intro x hx
                rcases List.mem_cons.mp hx with rfl | hx'
                · exact h2
                · exact ih h1 x hx'

/-- `emTrimGo` only returns a suffix that starts at a `take` message with
nothing but `skip` messages after it. -/
theorem emTrimGo_some_spec (l : List Msg) : ∀ suf, emTrimGo l = .ok (some suf) →
    ((∃ m post, suf = m :: post ∧ userMsgScan m = .take ∧ ∀ x ∈ post, userMsgScan x = .skip)
    ∧ suf <:+ l) := by
  induction l with
  | nil => intro suf h; simp [emTrimGo] at h
  | cons m rest ih =>
      intro suf h
      simp only [emTrimGo] at h
      rcases h1 : emTrimGo rest with e | o
      all_goals rw [h1] at h
      · simp at h
      · cases o with
        | some s =>
            have hs : s = suf := by simpa using h
            subst hs
            obtain ⟨hprops, hsuf⟩ := ih s h1
            exact ⟨hprops, hsuf.trans (List.suffix_cons m rest)⟩
        | none =>
            cases h2 : userMsgScan m with
            | take =>
                rw [h2] at h
                have hs : m :: rest = suf := by simpa using h
                subst hs
                exact ⟨⟨m, rest, rfl, h2, emTrimGo_none_spec rest h1⟩, List.suffix_refl _⟩
            | skip => rw [h2] at h; simp at h
            | crash => rw [h2] at h; simp at h

/-- `emergency_trim` yields the suffix starting at the last plain user
message, or at most two messages. -/
theorem emergency_trim_spec (l r : List Msg) (h : emergency_trim l = .ok r) :
    (∃ m post, r = m :: post ∧ r <:+ l ∧ userMsgScan m = .take ∧ ∀ x ∈ post, userMsgScan x = .skip)
    ∨ r.length ≤ 2 := by
  simp only [emergency_trim] at h
  rcases h1 : emTrimGo l with e | o
  all_goals rw [h1] at h
  · simp at h
  · cases o with
    | some suf =>
        have hs : suf = r := by simpa using h
        subst hs
        obtain ⟨⟨m, post, hsuf, htake, hskip⟩, hsfx⟩ := emTrimGo_some_spec l suf h1
        exact Or.inl ⟨m, post, hsuf, by rw [hsuf] at hsfx ⊢; exact hsfx, htake, hskip⟩
    | none =>
        have hs : l.drop (l.length - 2) = r := by simpa using h
        right
        rw [← hs, List.length_drop]
        omega

/-- Claim C1 (amended): whenever `prepare_messages` returns (does not
raise), the output is within the history budget, **or** is the suffix of
the tool-result-compacted input starting at its last plain (non-carrier)
user message, **or** has at most 2 messages.  (The claim as frozen — budget
or ≤ 2 messages — fails: see the counterexample.) -/
theorem c1_amended (hb : Int) (messages result : List Msg)
    (h : prepare_messages hb messages = .ok result) :
    ((estimate_messages_tokens result : Int) ≤ hb)
    ∨ (∃ m post, result = m :: post
        ∧ result <:+ compact_tool_results messages 6 500
        ∧ userMsgScan m = .take
        ∧ ∀ x ∈ post, userMsgScan x = .skip)
    ∨ result.length ≤ 2 := by
  simp only [prepare_messages] at h
  split at h
  · rename_i hle
    have hr : messages = result := by simpa using h
    subst hr
    exact Or.inl hle
  · split at h
    · rename_i hle
      have hr : compact_tool_results messages 6 500 = result := by simpa using h
      subst hr
      exact Or.inl hle
    · rcases emergency_trim_spec _ _ h with ⟨m, post, hr, hsfx, htake, hskip⟩ | hlen
      · exact Or.inr (Or.inl ⟨m, post, hr, hsfx, htake, hskip⟩)
      · exact Or.inr (Or.inr hlen)

/-- Witness for `c1_amended` at the empty message list and budget 0. -/
theorem c1_amended_witness :
    ((estimate_messages_tokens ([] : List Msg) : Int) ≤ 0)
    ∨ (∃ m post, ([] : List Msg) = m :: post
        ∧ ([] : List Msg) <:+ compact_tool_results [] 6 500
        ∧ userMsgScan m = .take
        ∧ ∀ x ∈ post, userMsgScan x = .skip)
    ∨ ([] : List Msg).length ≤ 2 :=
  c1_amended 0 [] [] (by rfl)

/-! ## Tool results and the tool executor (`tool_executor.py`, `domain/tools/base.py`)

`ToolResult` carries `text`, a data dict, `is_error` and an image list.
The modelled code reads exactly two keys of `data` — `workflow` and
`prompt_id` (`agent_loop._execute_tools`) — so the dict is embedded as
those two optional entries; the `workflow` value (a JSON object in the
program) is carried as its serialised string, and a present-but-falsy
value is represented by the empty string.  `images` is never read by the
modelled code and is omitted. -/

structure ToolResult where
  text : String := ""
  workflow : Option String := none
  prompt_id : Option String := none
  is_error : Bool := false
deriving DecidableEq, Repr

/-- `ToolResult.error(message)`. -/
def ToolResult.error (message : String) : ToolResult :=
  { text := message, is_error := true }

/-- `_truncate(text)` with the default limit `MAX_TOOL_RESULT_CHARS = 15000`:
keep the first and last `half = 7500` characters and replace the middle
`text[half:-half]` by a marker counting its newlines. -/
def truncateToolText (text : String) : String :=
  if text.length ≤ 15000 then text
  else
    let half := 15000 / 2
    let mid := (text.take (text.length - half)).drop half
    text.take half ++ "\n\n... [" ++ toString (mid.toList.count '\n') ++ " lines truncated] ...\n\n"
      ++ text.drop (text.length - half)

/-- Behaviour of `await asyncio.wait_for(tool.run(params), timeout)` for the
tool registered under a name: a returned `ToolResult`, an
`asyncio.TimeoutError`, or any other exception with its message. -/
inductive ToolRun where
  | ok (r : ToolResult)
  | timeout
  | raises (message : String)
deriving DecidableEq, Repr

/-- The `{t.info().name: t for t in tools}` registry; a later tool with the
same name overwrites an earlier one, hence the backwards search. -/
def lookupTool (reg : List (String × ToolRun)) (name : String) : Option ToolRun :=
  (reg.reverse.find? (fun kv => kv.fst == name)).map (fun kv => kv.snd)

/-- `ToolExecutor.execute` with timeout `tmo` seconds (the message renders
`{timeout:.0f}`, which for the integral default 60.0 prints the integer):
unknown names, timeouts and exceptions all become error `ToolResult`s —
the function is total, it never raises. -/
def execute (reg : List (String × ToolRun)) (tmo : Nat) (tool_name : String) : ToolResult :=
  match lookupTool reg tool_name with
  | none => ToolResult.error ("Unknown tool: " ++ tool_name)
  | some (.ok r) => { r with text := truncateToolText r.text }
  | some .timeout =>
      ToolResult.error ("Tool \x27" ++ tool_name ++ "\x27 timed out after " ++ toString tmo ++ " seconds")
  | some (.raises message) =>
      ToolResult.error ("Tool \x27" ++ tool_name ++ "\x27 failed: " ++ message)

/-- Claim C5: `ToolExecutor.execute` never raises (it is a total function
into `ToolResult` in this embedding); an unregistered name yields the
error text `Unknown tool: <name>`; a timeout yields
`Tool '<name>' timed out after N seconds`; any other exception yields
`Tool '<name>' failed: <message>`. -/
theorem c5_execute_error_isolation :
    (∀ reg tmo name, lookupTool reg name = none →
        execute reg tmo name = ToolResult.error ("Unknown tool: " ++ name))
    ∧ (∀ reg tmo name, lookupTool reg name = some .timeout →
        execute reg tmo name =
          ToolResult.error ("Tool \x27" ++ name ++ "\x27 timed out after " ++ toString tmo ++ " seconds"))
    ∧ (∀ reg tmo name message, lookupTool reg name = some (.raises message) →
        execute reg tmo name =
          ToolResult.error ("Tool \x27" ++ name ++ "\x27 failed: " ++ message)) := by
  refine ⟨?_, ?_, ?_⟩
  · intro reg tmo name h
    simp [execute, h]
  · intro reg tmo name h
    simp [execute, h]
  · intro reg tmo name message h
    simp [execute, h]

/-- Witness for `c5_execute_error_isolation`: all three branches at
concrete registries. -/
theorem c5_execute_witness :
    execute [] 60 "missing" = ToolResult.error ("Unknown tool: " ++ "missing")
    ∧ execute [("echo", ToolRun.timeout)] 60 "echo" =
        ToolResult.error ("Tool \x27" ++ "echo" ++ "\x27 timed out after " ++ toString 60 ++ " seconds")
    ∧ execute [("boom", ToolRun.raises "oops")] 60 "boom" =
        ToolResult.error ("Tool \x27" ++ "boom" ++ "\x27 failed: " ++ "oops") :=
  ⟨c5_execute_error_isolation.1 [] 60 "missing" (by rfl),
   c5_execute_error_isolation.2.1 [("echo", ToolRun.timeout)] 60 "echo" (by rfl),
   c5_execute_error_isolation.2.2 [("boom", ToolRun.raises "oops")] 60 "boom" "oops" (by rfl)⟩

/-! ## LLM responses and the retry loop (`infrastructure/clients/llm_client.py`) -/

/-- A tool call emitted by the LLM (`ToolCall`): id, name, input mapping.
The loop reads the input only through the `action` key
(`_tool_display_name`) and through `json.dumps` for token estimation, so
the mapping is embedded as those two projections. -/
structure ToolCall where
  id : String
  name : String
  action : Option String := none
  inputDump : String := "{}"
deriving DecidableEq, Repr

/-- `LLMResponse` (usage kept as its two counters). -/
structure LLMResponse where
  text : String := ""
  tool_calls : List ToolCall := []
  stop_reason : String := ""
  input_tokens : Nat := 0
  output_tokens : Nat := 0
deriving DecidableEq, Repr

/-- `LLMResponse.has_tool_calls`. -/
def LLMResponse.has_tool_calls (r : LLMResponse) : Bool :=
  decide (0 < r.tool_calls.length)

/-- Outcome of one `_do_chat` attempt: a response, a transient error
(`anthropic.RateLimitError` / `anthropic.InternalServerError` — the two
classes caught by the retry loop), or any other exception (uncaught,
propagates). -/
inductive AttemptOut where
  | success (r : LLMResponse)
  | transient (e : String)
  | fatal (e : String)
deriving DecidableEq, Repr

/-- How `LLMClient.chat` terminates: a response, a raised exception, the
degenerate `raise None` when the attempt loop never ran
(`max_retries = 0`), or the `AttributeError` raised by evaluating
`EventType.LLM_RETRY` — the member is referenced by the retry step's
`Event(type=EventType.LLM_RETRY, ...)` but is **not declared** in the
`EventType` enum (`domain/models/events.py`), and attribute access on a
missing enum member raises. -/
inductive ChatOutcome where
  | ok (r : LLMResponse)
  | raised (e : String)
  | raisedNone
  | attrError
deriving DecidableEq, Repr

/-- The `for attempt in range(1, max_retries + 1)` body: `success` returns;
`fatal` propagates; `transient` stores the error and either breaks out of
the loop (when `attempt == max_retries`, falling through to
`raise last_error`) or retries — but the retry step first runs
`if self.event_bus: await self.event_bus.emit(Event(type=EventType.LLM_RETRY, ...))`,
and building that event raises `AttributeError` (undeclared enum member),
uncaught by the `except (RateLimitError, InternalServerError)` clause.
`bus` is the truthiness of `self.event_bus`. -/
def chatAttempts (oracle : Nat → AttemptOut) (max_retries : Nat) (bus : Bool) :
    List Nat → Option String → ChatOutcome
  | [], last =>
      match last with
      | some e => .raised e
      | none => .raisedNone
  | a :: rest, _ =>
      match oracle a with
      | .success r => .ok r
      | .fatal e => .raised e
      | .transient e =>
          if a = max_retries then .raised e
          else if bus then .attrError
          else chatAttempts oracle max_retries bus rest (some e)

/-- `LLMClient.chat` with `max_retries` configured, attempt outcomes given
by `oracle`, and `bus` the truthiness of the constructor's `event_bus`. -/
def chat (oracle : Nat → AttemptOut) (max_retries : Nat) (bus : Bool) : ChatOutcome :=
  chatAttempts oracle max_retries bus (List.range' 1 max_retries) none

/-- Running the bus-less attempt loop from attempt `a` when every attempt
before the last is transient: the outcome is decided by attempt
`max_retries` alone. -/
theorem chatAttempts_run (oracle : Nat → AttemptOut) (k : Nat) :
    ∀ (n a : Nat) (last : Option String), a + n = k + 1 → 1 ≤ a → a ≤ k →
    (∀ i, a ≤ i → i < k → ∃ e, oracle i = .transient e) →
    chatAttempts oracle k false (List.range' a n) last =
      (match oracle k with
       | .success r => .ok r
       | .transient e => .raised e
       | .fatal e => .raised e) := by
  intro n
  induction n with
  | zero =>
      intro a last h1 h2 h3 h4
      omega
  | succ m ih =>
      intro a last h1 h2 h3 h4
      rw [List.range'_succ]
      by_cases hak : a = k
      · subst hak
        rcases h5 : oracle a with r | e | e
        · simp [chatAttempts, h5]
        · simp [chatAttempts, h5]
        · simp [chatAttempts, h5]
      · have hlt : a < k := lt_of_le_of_ne h3 hak
        obtain ⟨e, he⟩ := h4 a le_rfl hlt
        rw [show chatAttempts oracle k false (a :: List.range' (a + 1) m) last =
              (if a = k then .raised e
               else chatAttempts oracle k false (List.range' (a + 1) m) (some e))
            from by simp [chatAttempts, he]]
        rw [if_neg hak]
        exact ih (a + 1) (some e) (by omega) (by omega) (by omega)
          (fun i hi hik => h4 i (by omega) hik)

/-- Claim C6 (code bug): the retry law is the intent, and it does hold for
a client constructed **without** an event bus — `max_retries = k ≥ 1`,
`k−1` transient failures then success returns the success, `k` transient
failures raises the last error.  But the retry step's event emission
references `EventType.LLM_RETRY`, which is not declared in the
`EventType` enum, so a client constructed **with** an event bus (as
`interface/web.py`, `interface/cli.py`, and the repo's own
`test_emits_retry_event` construct it) raises `AttributeError` at the
first retried transient failure instead of retrying. -/
theorem c6_retry_bus_code_bug :
    (∀ (oracle : Nat → AttemptOut) (k : Nat) (e : String),
        2 ≤ k → oracle 1 = .transient e →
        chat oracle k true = .attrError)
    ∧ (∀ (oracle : Nat → AttemptOut) (k : Nat) (r : LLMResponse),
        1 ≤ k →
        (∀ i, 1 ≤ i → i < k → ∃ e, oracle i = .transient e) →
        oracle k = .success r →
        chat oracle k false = .ok r)
    ∧ (∀ (oracle : Nat → AttemptOut) (k : Nat) (e : String),
        1 ≤ k →
        (∀ i, 1 ≤ i → i < k → ∃ e2, oracle i = .transient e2) →
        oracle k = .transient e →
        chat oracle k false = .raised e) := by
  refine ⟨?_, ?_, ?_⟩
  · intro oracle k e hk h1
    obtain ⟨m, rfl⟩ : ∃ m, k = m + 2 := ⟨k - 2, by omega⟩
    have h12 : ¬ ((1 : Nat) = m + 2) := by omega
    rw [chat]
    rw [show (List.range' 1 (m + 2)) = 1 :: List.range' 2 (m + 1) from List.range'_succ 1 (m + 1) 1]
    simp [chatAttempts, h1, h12]
  · intro oracle k r hk htrans hk2
    rw [chat, chatAttempts_run oracle k k 1 none (by omega) le_rfl hk htrans, hk2]
  · intro oracle k e hk htrans hk2
    rw [chat, chatAttempts_run oracle k k 1 none (by omega) le_rfl hk htrans, hk2]

/-- The success response used by the retry witness. -/
def c6_resp : LLMResponse := { text := "hello" }

/-- Oracle: transient on attempt 1, success afterwards. -/
def c6_oracle1 : Nat → AttemptOut :=
  fun i => if i = 1 then .transient "rate limited" else .success c6_resp

/-- Oracle: transient on every attempt. -/
def c6_oracle2 : Nat → AttemptOut :=
  fun _ => .transient "overloaded"

/-- Witness for `c6_retry_bus_code_bug` at `max_retries = 2`: with a bus
the first transient failure crashes the chat; without one the retry law
holds on both paths. -/
theorem c6_retry_bus_code_bug_witness :
    chat c6_oracle2 2 true = .attrError
    ∧ chat c6_oracle1 2 false = .ok c6_resp
    ∧ chat c6_oracle2 2 false = .raised "overloaded" := by
  refine ⟨?_, ?_, ?_⟩
  · exact c6_retry_bus_code_bug.1 c6_oracle2 2 "overloaded" (by omega) (by rfl)
  · refine c6_retry_bus_code_bug.2.1 c6_oracle1 2 c6_resp (by omega) ?_ (by rfl)
    intro i h1 h2
    have h3 : i = 1 := by omega
    subst h3
    exact ⟨"rate limited", rfl⟩
  · exact c6_retry_bus_code_bug.2.2 c6_oracle2 2 "overloaded" (by omega)
      (fun i h1 h2 => ⟨"overloaded", rfl⟩)
      (by rfl)

/-! ## Agent loop (`application/agent_loop.py`, `application/message_builder.py`)

The bus events the loop emits, with the data-map fields the claims are
about.  `turn.end` also carries a wall-clock `duration`, which is not
modelled (real time); its `iterations` and aggregated usage fields are. -/

inductive Ev where
  | state_conversation_start
  | message_user (content : String)
  | turn_start
  | state_thinking
  | message_assistant (content : String) (tool_calls : Nat)
  | state_tool_executing (tool_name : String) (tool_id : String)
  | state_tool_completed (tool_name : String)
  | state_tool_failed (tool_name : String) (error : String)
  | message_tool_result (tool_name : String) (result : String)
  | workflow_submitted (workflow : String) (prompt_id : String)
  | state_conversation_end
  | turn_end (iterations input_tokens output_tokens : Nat)
deriving DecidableEq, Repr

/-- `AgentLoop._tool_display_name`: the string value of the `action` input
key when present, else the tool name. -/
def tool_display_name (tc : ToolCall) : String :=
  tc.action.getD tc.name

/-- `build_assistant_message`: an optional leading text block (only when
`response.text` is non-empty) followed by one `tool_use` block per tool
call. -/
def build_assistant_message (r : LLMResponse) : Msg :=
  { role := some "assistant",
    content := some (.blocks (
      (if r.text ≠ "" then [ContentItem.dict { type := some "text", text := some r.text }] else [])
      ++ r.tool_calls.map (fun tc =>
          ContentItem.dict { type := some "tool_use", id := some tc.id,
                             name := some tc.name, inputDump := some tc.inputDump }))) }

/-- `build_tool_result_block`. -/
def build_tool_result_block (tool_use_id text : String) (is_error : Bool) : ContentItem :=
  .dict { type := some "tool_result", tool_use_id := some tool_use_id,
          content := some text, is_error := some is_error }

/-- `build_tool_results_message`: the user-role carrier. -/
def build_tool_results_message (results : List ContentItem) : Msg :=
  { role := some "user", content := some (.blocks results) }

/-- One entry of `asyncio.gather(..., return_exceptions=True)`: either a
captured exception (with its message) or the tool executor's result. -/
inductive BatchOutcome where
  | exn (message : String)
  | res (r : ToolResult)
deriving DecidableEq, Repr

/-- `if result.data.get("workflow"):` — key present with a truthy value
(the serialised workflow is non-empty). -/
def workflowTruthy (r : ToolResult) : Bool :=
  match r.workflow with
  | some w => !(w == "")
  | none => false

/-- Phase 3 of `_execute_tools` for one `(tool_call, outcome)` pair:
the events emitted, the `tool_result` block appended, and whether this
pair counts as failed.  A gather-captured exception becomes
`Tool '<display>' failed: <e>`; an error result emits `state.tool_failed`;
a success emits `state.tool_completed` and — only on this branch — the
`workflow.submitted` event when `data["workflow"]` is truthy; every pair
then emits `message.tool_result` with the text clipped to 500 chars. -/
def processOutcome (tc : ToolCall) (display : String) (o : BatchOutcome) :
    List Ev × ContentItem × Bool :=
  match o with
  | .exn message =>
      let error_text := "Tool \x27" ++ display ++ "\x27 failed: " ++ message
      ([.state_tool_failed display error_text,
        .message_tool_result display (error_text.take 500)],
       build_tool_result_block tc.id error_text true, true)
  | .res r =>
      if r.is_error then
        ([.state_tool_failed display r.text,
          .message_tool_result display (r.text.take 500)],
         build_tool_result_block tc.id r.text r.is_error, true)
      else
        ((Ev.state_tool_completed display ::
            (if workflowTruthy r then
              [Ev.workflow_submitted (r.workflow.getD "") (r.prompt_id.getD "")]
             else []))
          ++ [.message_tool_result display (r.text.take 500)],
         build_tool_result_block tc.id r.text r.is_error, false)

/-- `AgentLoop._execute_tools`: phase 1 emits `state.tool_executing` per
call; phase 2 gathers the outcomes (given here as a list, zipped like
`zip(metas, raw)`); phase 3 processes each pair in order.  Returns the
emitted events, the `tool_result` blocks in call order, and the
`any_failed` flag. -/
def execute_tools (tcs : List ToolCall) (outcomes : List BatchOutcome) :
    List Ev × List ContentItem × Bool :=
  let pairs := tcs.zip outcomes
  let step := pairs.map (fun p => processOutcome p.fst (tool_display_name p.fst) p.snd)
  (tcs.map (fun tc => Ev.state_tool_executing (tool_display_name tc) tc.id)
     ++ (step.map (fun t => t.fst)).flatten,
   step.map (fun t => t.snd.fst),
   step.any (fun t => t.snd.snd))

/-! ## Claim C4: `workflow.submitted` emission -/

/-- Recogniser for `workflow.submitted` events. -/
def isWorkflowEv : Ev → Bool
  | .workflow_submitted _ _ => true
  | _ => false

/-- A tool call for the C4 counterexample. -/
def c4_call : ToolCall := { id := "t1", name := "submit" }

/-- An **error** result whose data map carries a workflow. -/
def c4_result : ToolResult :=
  { text := "boom", workflow := some "wf", prompt_id := some "p1", is_error := true }

/-- Claim C4, counterexample: for an error result whose `data_map` contains
a `workflow`, no `workflow.submitted` event is emitted — the emission sits
inside the non-error branch of `_execute_tools`. -/
theorem c4_counterexample :
    c4_result.workflow = some "wf" ∧ c4_result.is_error = true ∧
    ((execute_tools [c4_call] [BatchOutcome.res c4_result]).fst.filter isWorkflowEv) = [] := by
  decide

/-- Claim C4 (amended): during tool-batch execution, for every tool result
that is **not** an error and whose `data_map` contains a truthy `workflow`
entry, a `workflow.submitted` event carrying that workflow and its
`prompt_id` (default `""`) is emitted. -/
theorem c4_amended (tcs : List ToolCall) (outcomes : List BatchOutcome)
    (j : Nat) (tc : ToolCall) (r : ToolResult) (w : String)
    (hj : (tcs.zip outcomes).get? j = some (tc, .res r))
    (herr : r.is_error = false) (hw : r.workflow = some w) (hwne : w ≠ "") :
    Ev.workflow_submitted w (r.prompt_id.getD "") ∈ (execute_tools tcs outcomes).fst := by
  have htr : workflowTruthy r = true := by
    rw [workflowTruthy, hw]
    simpa using hwne
  have hsub : Ev.workflow_submitted w (r.prompt_id.getD "") ∈
      (processOutcome tc (tool_display_name tc) (.res r)).fst := by
    rw [processOutcome]
    simp only [herr, htr, hw]
    simp
  rw [execute_tools]
  simp only [List.mem_append]
  right
  rw [List.mem_flatten]
  refine ⟨(processOutcome tc (tool_display_name tc) (.res r)).fst, ?_, hsub⟩
  have hstep : ((tcs.zip outcomes).map
        (fun p => processOutcome p.fst (tool_display_name p.fst) p.snd)).get? j =
      some (processOutcome tc (tool_display_name tc) (.res r)) := by
    rw [List.get?_map, hj]
    rfl
  have hmem := List.get?_mem hstep
  have := List.mem_map_of_mem (fun t : List Ev × ContentItem × Bool => t.fst) hmem
  simpa using this

/-- The non-error result used by the C4 witness. -/
def c4_ok_result : ToolResult :=
  { text := "done", workflow := some "wf", prompt_id := some "p1", is_error := false }

/-- Witness for `c4_amended` at a one-call batch. -/
theorem c4_amended_witness :
    Ev.workflow_submitted "wf" (c4_ok_result.prompt_id.getD "") ∈
      (execute_tools [c4_call] [BatchOutcome.res c4_ok_result]).fst :=
  c4_amended [c4_call] [BatchOutcome.res c4_ok_result] 0 c4_call c4_ok_result "wf"
    (by rfl) (by rfl) (by rfl) (by decide)

/-! ## The run loop (`AgentLoop.run`)

The loop is modelled for the constructor defaults `summarizer=None` and
`context_manager=None` (both steps are `if`-guarded and skipped); the
system prompt and the loop-detection warning only feed the LLM call,
whose responses are given by the oracle `resp`.  Cancellation is a
per-session flag read once at the top of each iteration and once after
the loop; `flag i` is the value observed at the i-th check (the post-loop
check is occasion `maxIter`).  The `finally` block pops the flag, so the
map entry is always absent after `run` returns (`flagAfter = none`). -/

/-- What `AgentLoop.run` leaves behind: the returned text, the messages
appended (in memory and, in the same order and roles, to the session
store), the bus events, the number of LLM calls, and the session's entry
in `_cancel_flags` after return. -/
structure RunResult where
  finalText : String
  appended : List Msg
  events : List Ev
  llmCalls : Nat
  flagAfter : Option Bool
deriving DecidableEq, Repr

/-- `_finish_turn`: `state.conversation_end` then `turn.end`. -/
def finish_turn_events (iterations input_tokens output_tokens : Nat) : List Ev :=
  [.state_conversation_end, .turn_end iterations input_tokens output_tokens]

/-- The canonical iteration-exhaustion text. -/
def maxStepsText : String :=
  "I\x27ve reached the maximum number of steps. Here\x27s what I\x27ve done so far."

/-- A plain assistant message. -/
def assistantTextMsg (text : String) : Msg :=
  { role := some "assistant", content := some (.str text) }

/-- The `for iteration in range(max_iterations)` loop.  `fuel` is the
number of iterations left (`maxIter - i`), `i` the iteration index, `app`
the messages appended so far, `evs` the events so far, `tin`/`tout` the
accumulated usage, `calls` the LLM calls made.  Fuel 0 is loop
exhaustion: the iteration variable is `i - 1`, so `turn.end` reports `i`;
the flag is re-read (occasion `i = maxIter`) to pick the final text.  A
set flag at the top of iteration `i` breaks with the iteration variable
equal to `i`, so `turn.end` reports `i + 1`. -/
def runGo (resp : Nat → LLMResponse) (outc : Nat → List BatchOutcome) (flag : Nat → Bool) :
    Nat → Nat → List Msg → List Ev → Nat → Nat → Nat → RunResult
  | 0, i, app, evs, tin, tout, calls =>
      let ft := if flag i then "Request cancelled." else maxStepsText
      { finalText := ft,
        appended := app ++ [assistantTextMsg ft],
        events := evs ++ finish_turn_events i tin tout,
        llmCalls := calls,
        flagAfter := none }
  | fuel + 1, i, app, evs, tin, tout, calls =>
      if flag i then
        { finalText := "Request cancelled.",
          appended := app ++ [assistantTextMsg "Request cancelled."],
          events := evs ++ finish_turn_events (i + 1) tin tout,
          llmCalls := calls,
          flagAfter := none }
      else
        let r := resp i
        if r.has_tool_calls = true then
          let et := execute_tools r.tool_calls (outc i)
          runGo resp outc flag fuel (i + 1)
            (app ++ [build_assistant_message r, build_tool_results_message et.snd.fst])
            (evs ++ [Ev.state_thinking, Ev.message_assistant r.text r.tool_calls.length] ++ et.fst)
            (tin + r.input_tokens) (tout + r.output_tokens) (calls + 1)
        else
          { finalText := r.text,
            appended := app ++ [assistantTextMsg r.text],
            events := evs ++ [Ev.state_thinking, Ev.message_assistant r.text 0]
              ++ finish_turn_events (i + 1) (tin + r.input_tokens) (tout + r.output_tokens),
            llmCalls := calls + 1,
            flagAfter := none }

/-- `AgentLoop.run`: emit `state.conversation_start`, append and persist the
user message, emit `message.user` and `turn.start`, then iterate. -/
def run (maxIter : Nat) (resp : Nat → LLMResponse) (outc : Nat → List BatchOutcome)
    (flag : Nat → Bool) (user_input : String) : RunResult :=
  runGo resp outc flag maxIter 0
    [{ role := some "user", content := some (.str user_input) }]
    [Ev.state_conversation_start, Ev.message_user user_input, Ev.turn_start]
    0 0 0

/-! ## Claim C2: cancellation after two completed iterations -/

/-- The iterations field of a `turn.end` event. -/
def evTurnEndIterations : Ev → Option Nat
  | .turn_end n _ _ => some n
  | _ => none

/-- The tool call the C2 scenario's LLM keeps requesting. -/
def c2_call : ToolCall := { id := "t1", name := "dispatch", action := some "list_models" }

/-- The LLM response of every C2 iteration: one tool call, some usage. -/
def c2_resp : LLMResponse := { tool_calls := [c2_call], input_tokens := 10, output_tokens := 5 }

/-- The C2 run: `max_iterations = 20`, tool-calling responses forever, the
cancel flag set after exactly 2 completed iterations (observed from check
occasion 2 on). -/
def c2_run : RunResult :=
  run 20 (fun _ => c2_resp) (fun _ => [BatchOutcome.res { text := "ok" }])
    (fun i => decide (2 ≤ i)) "go"

/-- Claim C2, counterexample: cancelling after exactly 2 completed
iterations makes the loop break with the iteration variable equal to 2,
and `_finish_turn` receives `iteration + 1 = 3` — the single `turn.end`
event of the run carries `iterations = 3`, not 2.  (The rest of the claim
holds: see `c2_amended`.) -/
theorem c2_counterexample :
    c2_run.events.filterMap evTurnEndIterations = [3] ∧ (3 : Nat) ≠ 2 := by
  constructor
  · decide
  · decide

/-- Cancel-step lemma: a set flag at the top of an iteration ends the run. -/
theorem runGo_cancel (resp : Nat → LLMResponse) (outc : Nat → List BatchOutcome)
    (flag : Nat → Bool) (fuel i : Nat) (app : List Msg) (evs : List Ev)
    (tin tout calls : Nat) (h : flag i = true) :
    runGo resp outc flag (fuel + 1) i app evs tin tout calls =
      { finalText := "Request cancelled.",
        appended := app ++ [assistantTextMsg "Request cancelled."],
        events := evs ++ finish_turn_events (i + 1) tin tout,
        llmCalls := calls,
        flagAfter := none } := by
  simp [runGo, h]

/-- Tool-iteration step lemma. -/
theorem runGo_tool_step (resp : Nat → LLMResponse) (outc : Nat → List BatchOutcome)
    (flag : Nat → Bool) (fuel i : Nat) (app : List Msg) (evs : List Ev)
    (tin tout calls : Nat) (h : flag i = false) (ht : (resp i).has_tool_calls = true) :
    runGo resp outc flag (fuel + 1) i app evs tin tout calls =
      runGo resp outc flag fuel (i + 1)
        (app ++ [build_assistant_message (resp i),
                 build_tool_results_message (execute_tools (resp i).tool_calls (outc i)).snd.fst])
        (evs ++ [Ev.state_thinking, Ev.message_assistant (resp i).text (resp i).tool_calls.length]
          ++ (execute_tools (resp i).tool_calls (outc i)).fst)
        (tin + (resp i).input_tokens) (tout + (resp i).output_tokens) (calls + 1) := by
  simp [runGo, h, ht]

/-- Claim C2 (amended): with the per-session cancel flag set after exactly
2 completed loop iterations and an always-tool-calling LLM,
`AgentLoop.run` exits before a 3rd LLM call (`llmCalls = 2`), appends and
returns the final text `"Request cancelled."`, emits `turn.end` whose
iterations field equals **3** (the loop breaks with the iteration
variable already at 2, and `_finish_turn` receives `iteration + 1`), and
the cancel flag is absent from the flag map after `run` returns. -/
theorem c2_amended (maxIter : Nat) (resp : Nat → LLMResponse)
    (outc : Nat → List BatchOutcome) (input : String)
    (hmax : 3 ≤ maxIter) (htc : ∀ i, (resp i).has_tool_calls = true) :
    (run maxIter resp outc (fun i => decide (2 ≤ i)) input).finalText = "Request cancelled."
    ∧ (run maxIter resp outc (fun i => decide (2 ≤ i)) input).llmCalls = 2
    ∧ (run maxIter resp outc (fun i => decide (2 ≤ i)) input).flagAfter = none
    ∧ (∃ pre, (run maxIter resp outc (fun i => decide (2 ≤ i)) input).events =
        pre ++ finish_turn_events 3 ((resp 0).input_tokens + (resp 1).input_tokens)
          ((resp 0).output_tokens + (resp 1).output_tokens))
    ∧ (∃ pre, (run maxIter resp outc (fun i => decide (2 ≤ i)) input).appended =
        pre ++ [assistantTextMsg "Request cancelled."]) := by
  obtain ⟨k, rfl⟩ : ∃ k, maxIter = k + 3 := ⟨maxIter - 3, by omega⟩
  rw [run]
  rw [show k + 3 = (k + 2) + 1 from rfl]
  rw [runGo_tool_step _ _ _ _ _ _ _ _ _ _ (by decide) (htc 0)]
  rw [show k + 2 = (k + 1) + 1 from rfl]
  rw [runGo_tool_step _ _ _ _ _ _ _ _ _ _ (by decide) (htc 1)]
  rw [runGo_cancel _ _ _ _ _ _ _ _ _ _ (by decide)]
  refine ⟨rfl, rfl, rfl, ?_, ⟨_, rfl⟩⟩
  simp only [Nat.zero_add]
  exact ⟨_, rfl⟩

/-- Witness for `c2_amended` at the concrete C2 scenario. -/
theorem c2_amended_witness :
    c2_run.finalText = "Request cancelled."
    ∧ c2_run.llmCalls = 2
    ∧ c2_run.flagAfter = none
    ∧ (∃ pre, c2_run.events =
        pre ++ finish_turn_events 3 (c2_resp.input_tokens + c2_resp.input_tokens)
          (c2_resp.output_tokens + c2_resp.output_tokens))
    ∧ (∃ pre, c2_run.appended = pre ++ [assistantTextMsg "Request cancelled."]) :=
  c2_amended 20 (fun _ => c2_resp) (fun _ => [BatchOutcome.res { text := "ok" }]) "go"
    (by omega) (fun _ => rfl)

/-! ## Claim C8: tool-result pairing

Claim-side predicates, evaluated on the messages the loop builds: a
message "contains tool_use blocks", the ids of those blocks, a carrier
message, and the chain property "every tool-use assistant message is
immediately followed by its matching carrier". -/

/-- An item that is a `tool_use` block. -/
def isToolUseItem : ContentItem → Bool
  | .dict b => b.type == some "tool_use"
  | _ => false

/-- An item that is a `tool_result` block. -/
def isToolResultItem : ContentItem → Bool
  | .dict b => b.type == some "tool_result"
  | _ => false

/-- Does the message contain any `tool_use` block? -/
def hasToolUse (m : Msg) : Bool :=
  match m.content with
  | some (.blocks items) => items.any isToolUseItem
  | _ => false

/-- The ids of the message's `tool_use` blocks, in order. -/
def toolUseIds (m : Msg) : List String :=
  match m.content with
  | some (.blocks items) =>
      items.filterMap (fun it => match it with
        | .dict b => if b.type = some "tool_use" then b.id else none
        | _ => none)
  | _ => []

/-- The `tool_use_id`s of the message's `tool_result` blocks, in order. -/
def toolResultIds (m : Msg) : List String :=
  match m.content with
  | some (.blocks items) =>
      items.filterMap (fun it => match it with
        | .dict b => if b.type = some "tool_result" then b.tool_use_id else none
        | _ => none)
  | _ => []

/-- The message's content is a list consisting of `tool_result` blocks. -/
def isCarrierList (m : Msg) : Bool :=
  match m.content with
  | some (.blocks items) => items.all isToolResultItem
  | _ => false

/-- `next` is the carrier matching `m`: user role, all-`tool_result`
content, `tool_use_id`s exactly the `tool_use` ids of `m` in the same
order, each occurring once. -/
def carrierFor (m next : Msg) : Bool :=
  (next.role == some "user") && isCarrierList next
    && (toolResultIds next == toolUseIds m)
    && decide (toolResultIds next).Nodup

/-- The link obligation of one message towards the rest of the sequence: a
last message must contain no `tool_use` blocks; otherwise a message with
`tool_use` blocks must be immediately followed by its carrier. -/
def chainLink : Msg → List Msg → Bool
  | m, [] => !(hasToolUse m)
  | m, next :: _ => if hasToolUse m then carrierFor m next else true

/-- The pairing invariant over a stored message sequence: every message
containing `tool_use` blocks is immediately followed by its carrier. -/
def pairedChain : List Msg → Bool
  | [] => true
  | m :: rest => chainLink m rest && pairedChain rest

/-- `filterMap` of a function that is `some` everywhere is a `map`. -/
theorem filterMap_all_some {α β : Type} (f : α → Option β) (g : α → β) (l : List α)
    (h : ∀ a ∈ l, f a = some (g a)) : l.filterMap f = l.map g := by
  induction l with
  | nil => rfl
  | cons a rest ih =>
      rw [List.filterMap_cons, h a (List.mem_cons_self a rest), List.map_cons,
        ih (fun x hx => h x (List.mem_cons_of_mem a hx))]

/-- The block list `_execute_tools` returns: one `tool_result` block per
`(call, outcome)` pair, keyed by the call's id. -/
theorem execute_tools_blocks (tcs : List ToolCall) (outs : List BatchOutcome) :
    (execute_tools tcs outs).snd.fst =
      (tcs.zip outs).map (fun p => build_tool_result_block p.fst.id
        (match p.snd with
         | .exn m => "Tool \x27" ++ tool_display_name p.fst ++ "\x27 failed: " ++ m
         | .res r => r.text)
        (match p.snd with
         | .exn _ => true
         | .res r => r.is_error)) := by
  rw [execute_tools]
  simp only [List.map_map]
  apply List.map_congr_left
  intro p _
  rcases p with ⟨tc, o⟩
  cases o with
  | exn m => rfl
  | res r =>
      by_cases hr : r.is_error = true
      · simp [Function.comp, processOutcome, hr]
      · simp only [Bool.not_eq_true] at hr
        simp [Function.comp, processOutcome, hr]

theorem toolResultIds_carrier (tcs : List ToolCall) (outs : List BatchOutcome) :
    toolResultIds (build_tool_results_message (execute_tools tcs outs).snd.fst)
      = (tcs.zip outs).map (fun p => p.fst.id) := by
  rw [execute_tools_blocks]
  simp only [build_tool_results_message, toolResultIds]
  rw [List.filterMap_map]
  apply filterMap_all_some
  intro p _
  simp [Function.comp, build_tool_result_block]

theorem isCarrierList_carrier (tcs : List ToolCall) (outs : List BatchOutcome) :
    isCarrierList (build_tool_results_message (execute_tools tcs outs).snd.fst) = true := by
  rw [execute_tools_blocks]
  simp only [build_tool_results_message, isCarrierList]
  rw [List.all_eq_true]
  intro it hit
  rw [List.mem_map] at hit
  obtain ⟨p, _, rfl⟩ := hit
  rfl

theorem hasToolUse_carrier (tcs : List ToolCall) (outs : List BatchOutcome) :
    hasToolUse (build_tool_results_message (execute_tools tcs outs).snd.fst) = false := by
  rw [execute_tools_blocks]
  simp only [build_tool_results_message, hasToolUse]
  rw [List.any_eq_false]
  intro it hit
  rw [List.mem_map] at hit
  obtain ⟨p, _, rfl⟩ := hit
  simp [isToolUseItem, build_tool_result_block]

theorem toolUseIds_assistant (r : LLMResponse) :
    toolUseIds (build_assistant_message r) = r.tool_calls.map ToolCall.id := by
  simp only [build_assistant_message, toolUseIds]
  rw [List.filterMap_append, List.filterMap_map]
  have h1 : (if r.text ≠ "" then [ContentItem.dict { type := some "text", text := some r.text }]
      else []).filterMap (fun it => match it with
        | .dict b => if b.type = some "tool_use" then b.id else none
        | _ => none) = [] := by
    split <;> rfl
  rw [h1]
  rw [filterMap_all_some _ ToolCall.id _ (fun tc _ => by simp [Function.comp])]
  rfl

theorem carrierFor_assistant (r : LLMResponse) (outs : List BatchOutcome)
    (hlen : outs.length = r.tool_calls.length)
    (hids : (r.tool_calls.map ToolCall.id).Nodup) :
    carrierFor (build_assistant_message r)
      (build_tool_results_message (execute_tools r.tool_calls outs).snd.fst) = true := by
  have hzip : (r.tool_calls.zip outs).map (fun p => p.fst.id)
      = r.tool_calls.map ToolCall.id := by
    have hfst := List.map_fst_zip r.tool_calls outs (by omega)
    calc (r.tool_calls.zip outs).map (fun p => p.fst.id)
        = ((r.tool_calls.zip outs).map Prod.fst).map ToolCall.id := by
          rw [List.map_map]; rfl
      _ = r.tool_calls.map ToolCall.id := by rw [hfst]
  have hrole : (build_tool_results_message (execute_tools r.tool_calls outs).snd.fst).role
      = some "user" := rfl
  rw [carrierFor, toolResultIds_carrier, toolUseIds_assistant, hzip, hrole,
    isCarrierList_carrier]
  simp [hids]

/-- Spine of one tool iteration in the appended message list. -/
def pairMsgs (p : LLMResponse × List BatchOutcome) : List Msg :=
  [build_assistant_message p.fst,
   build_tool_results_message (execute_tools p.fst.tool_calls p.snd).snd.fst]

/-- A chain headed by a tool-use-free message, followed by
assistant/carrier pairs and a final plain assistant message, is paired. -/
theorem pairedChain_shape (script : List (LLMResponse × List BatchOutcome)) :
    ∀ (lead : Msg) (ft : String), hasToolUse lead = false →
    (∀ p ∈ script, p.snd.length = p.fst.tool_calls.length
        ∧ (p.fst.tool_calls.map ToolCall.id).Nodup) →
    pairedChain (lead :: ((script.map pairMsgs).flatten ++ [assistantTextMsg ft])) = true := by
  induction script with
  | nil =>
      intro lead ft hlead _
      have hft : hasToolUse (assistantTextMsg ft) = false := rfl
      simp [pairedChain, chainLink, hlead, hft]
  | cons p rest ih =>
      intro lead ft hlead hconds
      obtain ⟨hlen, hids⟩ := hconds p (List.mem_cons_self p rest)
      have hcf := carrierFor_assistant p.fst p.snd hlen hids
      have hnc := hasToolUse_carrier p.fst.tool_calls p.snd
      have ihr := ih (build_tool_results_message (execute_tools p.fst.tool_calls p.snd).snd.fst)
        ft hnc (fun q hq => hconds q (List.mem_cons_of_mem p hq))
      have hshape : (((p :: rest).map pairMsgs).flatten ++ [assistantTextMsg ft]) =
          build_assistant_message p.fst ::
            build_tool_results_message (execute_tools p.fst.tool_calls p.snd).snd.fst ::
              ((rest.map pairMsgs).flatten ++ [assistantTextMsg ft]) := by
        simp [pairMsgs]
      rw [hshape]
      simp only [pairedChain]
      have hif1 : chainLink lead (build_assistant_message p.fst ::
          build_tool_results_message (execute_tools p.fst.tool_calls p.snd).snd.fst ::
          ((rest.map pairMsgs).flatten ++ [assistantTextMsg ft])) = true := by
        rw [chainLink, hlead]
        rfl
      have hif2 : chainLink (build_assistant_message p.fst)
          (build_tool_results_message (execute_tools p.fst.tool_calls p.snd).snd.fst ::
            ((rest.map pairMsgs).flatten ++ [assistantTextMsg ft])) = true := by
        rw [chainLink]
        cases h : hasToolUse (build_assistant_message p.fst)
        · rfl
        · simpa using hcf
      rw [hif1, hif2]
      simp only [Bool.true_and]
      exact ihr

/-- The messages a run appends after the user message: assistant/carrier
pairs for each tool iteration (a response and its batch outcomes drawn
from the oracles, with at least one tool call), then one plain assistant
message with the final text. -/
theorem runGo_appended_shape (resp : Nat → LLMResponse) (outc : Nat → List BatchOutcome)
    (flag : Nat → Bool) :
    ∀ (fuel i : Nat) (app : List Msg) (evs : List Ev) (tin tout calls : Nat),
    ∃ (script : List (LLMResponse × List BatchOutcome)) (ft : String),
      (runGo resp outc flag fuel i app evs tin tout calls).appended
        = app ++ ((script.map pairMsgs).flatten ++ [assistantTextMsg ft])
      ∧ ∀ p ∈ script, (∃ j, p = (resp j, outc j)) ∧ p.fst.tool_calls ≠ [] := by
  intro fuel
  induction fuel with
  | zero =>
      intro i app evs tin tout calls
      exact ⟨[], if flag i then "Request cancelled." else maxStepsText,
        by simp [runGo], fun p hp => absurd hp (List.not_mem_nil p)⟩
  | succ fuel ih =>
      intro i app evs tin tout calls
      by_cases hf : flag i = true
      · exact ⟨[], "Request cancelled.", by simp [runGo, hf],
          fun p hp => absurd hp (List.not_mem_nil p)⟩
      · rw [Bool.not_eq_true] at hf
        by_cases ht : (resp i).has_tool_calls = true
        · obtain ⟨script, ft, happ, hcond⟩ := ih (i + 1)
            (app ++ [build_assistant_message (resp i),
              build_tool_results_message (execute_tools (resp i).tool_calls (outc i)).snd.fst])
            (evs ++ [Ev.state_thinking,
              Ev.message_assistant (resp i).text (resp i).tool_calls.length]
              ++ (execute_tools (resp i).tool_calls (outc i)).fst)
            (tin + (resp i).input_tokens) (tout + (resp i).output_tokens) (calls + 1)
          refine ⟨(resp i, outc i) :: script, ft, ?_, ?_⟩
          · rw [runGo_tool_step _ _ _ _ _ _ _ _ _ _ hf ht, happ]
            simp [pairMsgs, List.append_assoc]
          · intro p hp
            rcases List.mem_cons.mp hp with rfl | hp'
            · refine ⟨⟨i, rfl⟩, ?_⟩
              rw [LLMResponse.has_tool_calls] at ht
              intro hnil
              rw [hnil] at ht
              simp at ht
            · exact hcond p hp'
        · rw [Bool.not_eq_true] at ht
          exact ⟨[], (resp i).text, by simp [runGo, hf, ht],
            fun p hp => absurd hp (List.not_mem_nil p)⟩

/-- Claim C8: after a turn of the agent loop completes without
cancellation, every appended assistant message containing `tool_use`
blocks is immediately followed by a user-role carrier whose
`tool_result` blocks' `tool_use_id`s are exactly those `tool_use` ids,
each occurring once, in the order of the tool calls — provided the LLM's
tool-call ids within one response are distinct (the data-model invariant)
and the gather returns one outcome per call. -/
theorem c8_tool_result_pairing (maxIter : Nat) (resp : Nat → LLMResponse)
    (outc : Nat → List BatchOutcome) (input : String)
    (hids : ∀ j, ((resp j).tool_calls.map ToolCall.id).Nodup)
    (hlen : ∀ j, (outc j).length = (resp j).tool_calls.length) :
    pairedChain (run maxIter resp outc (fun _ => false) input).appended = true := by
  obtain ⟨script, ft, happ, hcond⟩ := runGo_appended_shape resp outc (fun _ => false)
    maxIter 0
    [{ role := some "user", content := some (.str input) }]
    [Ev.state_conversation_start, Ev.message_user input, Ev.turn_start] 0 0 0
  rw [run, happ, List.singleton_append]
  apply pairedChain_shape
  · rfl
  · intro p hp
    obtain ⟨⟨j, rfl⟩, _⟩ := hcond p hp
    exact ⟨hlen j, hids j⟩

/-- The batch outcome list used by the C8 witness. -/
def c8_outc : List BatchOutcome := [BatchOutcome.res { text := "ok" }, BatchOutcome.exn "boom"]

/-- The two-call response used by the C8 witness. -/
def c8_resp : LLMResponse :=
  { tool_calls := [{ id := "t1", name := "dispatch", action := some "list_models" },
                   { id := "t2", name := "dispatch" }] }

/-- Witness for `c8_tool_result_pairing`: one tool round with two calls
(one success, one gather-captured exception), then iteration exhaustion
(`max_iterations = 2` with an always-tool-calling LLM). -/
theorem c8_pairing_witness :
    pairedChain (run 2 (fun _ => c8_resp) (fun _ => c8_outc) (fun _ => false) "hi").appended
      = true := by
  apply c8_tool_result_pairing
  · intro j
    decide
  · intro j
    decide

/-! ## Event bus (`infrastructure/event_bus.py`)

Handlers are modelled as registration tokens (`Nat`); event types as
their string values (exact subscription keys the enum member, prefix
matching uses `event.type.value` — the same string).  The two handler
dicts are Python dicts, i.e. association lists whose keys stay at their
first-insertion position; `defaultdict[key].append(h)` either extends an
existing key's list in place or adds the key at the end. -/

structure Bus where
  exactH : List (String × List Nat)
  preH : List (String × List Nat)
  allH : List Nat
deriving DecidableEq, Repr

/-- `defaultdict(list)[k].append(h)`. -/
def addAssoc (l : List (String × List Nat)) (k : String) (h : Nat) : List (String × List Nat) :=
  match l with
  | [] => [(k, [h])]
  | (k2, hs) :: rest => if k2 = k then (k2, hs ++ [h]) :: rest else (k2, hs) :: addAssoc rest k h

def emptyBus : Bus := ⟨[], [], []⟩

/-- `EventBus.on`. -/
def Bus.on (b : Bus) (t : String) (h : Nat) : Bus :=
  { b with exactH := addAssoc b.exactH t h }

/-- `EventBus.on_prefix` (the prefix-subscription method). -/
def Bus.onPre (b : Bus) (p : String) (h : Nat) : Bus :=
  { b with preH := addAssoc b.preH p h }

/-- `EventBus.on_all`. -/
def Bus.onAll (b : Bus) (h : Nat) : Bus :=
  { b with allH := b.allH ++ [h] }

/-- `if event.type in self._handlers: handlers.extend(self._handlers[event.type])`. -/
def lookupAssoc (l : List (String × List Nat)) (k : String) : List Nat :=
  match l.find? (fun kv => kv.fst == k) with
  | some kv => kv.snd
  | none => []

/-- The prefix-matching loop of `emit`: iterate the dict items in key
insertion order, extending with each matching prefix's handler list. -/
def preMatches (l : List (String × List Nat)) (t : String) : List Nat :=
  l.foldl (fun acc kv => if strStartsWith t kv.fst then acc ++ kv.snd else acc) []

/-- The handler order of one `emit` for an event whose type string is `t`:
exact matches, then prefix matches, then all-handlers. -/
def emitOrder (b : Bus) (t : String) : List Nat :=
  lookupAssoc b.exactH t ++ preMatches b.preH t ++ b.allH

/-- One subscription call, for describing registration histories. -/
inductive Reg where
  | exa (t : String) (h : Nat)
  | pre (p : String) (h : Nat)
  | all (h : Nat)
deriving DecidableEq, Repr

def applyReg (b : Bus) : Reg → Bus
  | .exa t h => b.on t h
  | .pre p h => b.onPre p h
  | .all h => b.onAll h

/-- The bus after a sequence of subscription calls on a fresh bus. -/
def applyScript (s : List Reg) : Bus :=
  s.foldl applyReg emptyBus

/-- Three prefix registrations under two distinct prefixes, both matching
`"state.x"`: handler 1 under `"st"`, then 2 under `"s"`, then 3 under
`"st"` again. -/
def c7_script : List Reg := [.pre "st" 1, .pre "s" 2, .pre "st" 3]

/-- Claim C7, counterexample: within the prefix group, handlers run
grouped by their prefix string (dict key order), not in global
registration order: registration order is 1, 2, 3 but the emit order is
1, 3, 2 — handler 3 (prefix "st") runs before handler 2 (prefix "s"). -/
theorem c7_counterexample :
    emitOrder (applyScript c7_script) "state.x" = [1, 3, 2] ∧
    emitOrder (applyScript c7_script) "state.x" ≠ [1, 2, 3] := by
  decide

/-! ### The amended emit order, characterised from the registration history -/

/-- The exact registrations of a script, as (type, handler) pairs. -/
def exactRegs (s : List Reg) : List (String × Nat) :=
  s.filterMap (fun r => match r with | .exa t h => some (t, h) | _ => none)

/-- The prefix registrations of a script, as (prefix-string, handler) pairs. -/
def preRegs (s : List Reg) : List (String × Nat) :=
  s.filterMap (fun r => match r with | .pre p h => some (p, h) | _ => none)

/-- The all-event registrations of a script. -/
def allRegs (s : List Reg) : List Nat :=
  s.filterMap (fun r => match r with | .all h => some h | _ => none)

/-- The handlers registered under one key, in registration order. -/
def valuesUnder (prs : List (String × Nat)) (k : String) : List Nat :=
  prs.filterMap (fun ph => if ph.fst = k then some ph.snd else none)

/-- A dict built by repeated `defaultdict[key].append`. -/
def buildAssoc (prs : List (String × Nat)) : List (String × List Nat) :=
  prs.foldl (fun l ph => addAssoc l ph.fst ph.snd) []

/-- The distinct members of a list, each at its first occurrence. -/
def firstOccur (l : List String) : List String :=
  match l with
  | [] => []
  | x :: rest => x :: firstOccur (rest.filter (fun y => !(y == x)))
termination_by l.length
decreasing_by
  simp only [List.length_cons]
  have h := List.length_filter_le (fun y => !(y == x)) rest
  omega

theorem mem_of_mem_firstOccur {x : String} :
    ∀ (n : Nat) (l : List String), l.length ≤ n → x ∈ firstOccur l → x ∈ l := by
  intro n
  induction n with
  | zero =>
      intro l hl hm
      rw [Nat.le_zero, List.length_eq_zero] at hl
      subst hl
      simpa [firstOccur] using hm
  | succ k ih =>
      intro l hl hm
      cases l with
      | nil => simpa [firstOccur] using hm
      | cons y rest =>
          rw [firstOccur] at hm
          rcases List.mem_cons.mp hm with rfl | hm'
          · exact List.mem_cons_self _ _
          · have hlen : (rest.filter (fun z => !(z == y))).length ≤ k := by
              have := List.length_filter_le (fun z => !(z == y)) rest
              simp only [List.length_cons] at hl
              omega
            have hx := ih _ hlen hm'
            exact List.mem_cons_of_mem y (List.mem_of_mem_filter hx)

/-- `lookupAssoc` on a non-empty association list. -/
theorem lookupAssoc_cons (kv : String × List Nat) (l : List (String × List Nat)) (t : String) :
    lookupAssoc (kv :: l) t = if kv.fst = t then kv.snd else lookupAssoc l t := by
  rcases kv with ⟨k2, hs⟩
  by_cases h : k2 = t
  · subst h
    simp [lookupAssoc, List.find?]
  · have hb : (k2 == t) = false := by simpa using h
    simp [lookupAssoc, List.find?, hb, h]

/-- `lookupAssoc` after one `addAssoc`. -/
theorem lookupAssoc_addAssoc (l : List (String × List Nat)) (k : String) (h : Nat) (t : String) :
    lookupAssoc (addAssoc l k h) t =
      if t = k then lookupAssoc l t ++ [h] else lookupAssoc l t := by
  induction l with
  | nil =>
      by_cases ht : t = k
      · subst ht
        simp [addAssoc, lookupAssoc_cons, lookupAssoc]
      · have hkt : ¬ (k = t) := fun hh => ht hh.symm
        simp [addAssoc, lookupAssoc_cons, lookupAssoc, ht, hkt]
  | cons kv rest ih =>
      rcases kv with ⟨k2, hs⟩
      by_cases hk : k2 = k
      · subst hk
        have haa : addAssoc ((k2, hs) :: rest) k2 h = (k2, hs ++ [h]) :: rest := by
          simp [addAssoc]
        rw [haa, lookupAssoc_cons, lookupAssoc_cons]
        by_cases ht : k2 = t
        · subst ht
          simp
        · have ht2 : ¬ (t = k2) := fun hh => ht hh.symm
          simp [ht, ht2]
      · have haa : addAssoc ((k2, hs) :: rest) k h = (k2, hs) :: addAssoc rest k h := by
          simp [addAssoc, hk]
        rw [haa, lookupAssoc_cons, lookupAssoc_cons, ih]
        by_cases ht : k2 = t
        · subst ht
          simp [hk]
        · simp [ht]

/-- `addAssoc` on a present key extends that key's list in place. -/
theorem addAssoc_mem (l : List (String × List Nat)) (p : String) (h : Nat)
    (hnd : (l.map Prod.fst).Nodup) (hp : p ∈ l.map Prod.fst) :
    addAssoc l p h = l.map (fun kv => if kv.fst = p then (kv.fst, kv.snd ++ [h]) else kv) := by
  induction l with
  | nil => simp at hp
  | cons kv rest ih =>
      rcases kv with ⟨k2, hs⟩
      simp only [List.map_cons, List.nodup_cons] at hnd
      by_cases hk : k2 = p
      · subst hk
        have haa : addAssoc ((k2, hs) :: rest) k2 h = (k2, hs ++ [h]) :: rest := by
          simp [addAssoc]
        rw [haa, List.map_cons]
        simp only [if_pos rfl]
        congr 1
        have hrest : ∀ kv2 ∈ rest,
            (if (kv2 : String × List Nat).fst = k2 then (kv2.fst, kv2.snd ++ [h]) else kv2) = kv2 := by
          intro kv2 hkv2
          have hne : kv2.fst ≠ k2 := by
            intro he
            exact hnd.1 (he ▸ List.mem_map_of_mem Prod.fst hkv2)
          simp [hne]
        rw [List.map_congr_left hrest]
        simp
      · have haa : addAssoc ((k2, hs) :: rest) p h = (k2, hs) :: addAssoc rest p h := by
          simp [addAssoc, hk]
        have hp2 : p ∈ rest.map Prod.fst := by
          rw [List.map_cons] at hp
          rcases List.mem_cons.mp hp with he | hm
          · exact absurd he.symm hk
          · exact hm
        rw [haa, ih hnd.2 hp2, List.map_cons]
        simp [hk]

/-- `addAssoc` on an absent key appends a fresh entry at the end. -/
theorem addAssoc_notMem (l : List (String × List Nat)) (p : String) (h : Nat)
    (hp : p ∉ l.map Prod.fst) :
    addAssoc l p h = l ++ [(p, [h])] := by
  induction l with
  | nil => rfl
  | cons kv rest ih =>
      rcases kv with ⟨k2, hs⟩
      simp only [List.map_cons, List.mem_cons, not_or] at hp
      have hk : k2 ≠ p := fun he => hp.1 he.symm
      have haa : addAssoc ((k2, hs) :: rest) p h = (k2, hs) :: addAssoc rest p h := by
        simp [addAssoc, hk]
      rw [haa, ih hp.2]
      rfl

/-- The in-place update of `addAssoc_mem` does not change the key list. -/
theorem keys_map_update (l : List (String × List Nat)) (p : String) (h : Nat) :
    (l.map (fun kv => if kv.fst = p then (kv.fst, kv.snd ++ [h]) else kv)).map Prod.fst
      = l.map Prod.fst := by
  rw [List.map_map]
  apply List.map_congr_left
  intro kv _
  by_cases hk : kv.fst = p <;> simp [Function.comp, hk]

theorem valuesUnder_cons (p : String) (h : Nat) (prs : List (String × Nat)) (k : String) :
    valuesUnder ((p, h) :: prs) k = (if p = k then [h] else []) ++ valuesUnder prs k := by
  rw [valuesUnder, List.filterMap_cons]
  by_cases hp : p = k <;> simp [valuesUnder, hp]

/-- The dict built by `defaultdict[key].append`, starting from a dict `l`
with distinct keys: existing keys keep their position and collect their
new handlers in order; new keys are appended in first-registration order
with their handlers. -/
theorem buildAssoc_grouped (prs : List (String × Nat)) :
    ∀ (l : List (String × List Nat)), (l.map Prod.fst).Nodup →
    prs.foldl (fun acc ph => addAssoc acc ph.fst ph.snd) l
      = l.map (fun kv => (kv.fst, kv.snd ++ valuesUnder prs kv.fst))
        ++ (firstOccur ((prs.map Prod.fst).filter
            (fun p => decide (p ∉ l.map Prod.fst)))).map
            (fun p => (p, valuesUnder prs p)) := by
  induction prs with
  | nil =>
      intro l _
      simp [valuesUnder, firstOccur]
  | cons ph rest ih =>
      rcases ph with ⟨p, h⟩
      intro l hnd
      rw [List.foldl_cons]
      by_cases hp : p ∈ l.map Prod.fst
      · rw [addAssoc_mem l p h hnd hp]
        rw [ih _ (by rw [keys_map_update]; exact hnd)]
        congr 1
        · rw [List.map_map]
          apply List.map_congr_left
          intro kv _
          by_cases hkp : kv.fst = p
          · simp [Function.comp, hkp, valuesUnder_cons, List.append_assoc]
          · have hpk : ¬ (p = kv.fst) := fun hh => hkp hh.symm
            simp [Function.comp, hkp, valuesUnder_cons, hpk]
        · rw [keys_map_update]
          have hfil : (((p, h) :: rest).map Prod.fst).filter
                (fun q => decide (q ∉ l.map Prod.fst))
              = (rest.map Prod.fst).filter (fun q => decide (q ∉ l.map Prod.fst)) := by
            simp [hp]
          rw [hfil]
          apply List.map_congr_left
          intro q hq
          have hql : q ∈ (rest.map Prod.fst).filter (fun q => decide (q ∉ l.map Prod.fst)) :=
            mem_of_mem_firstOccur _ _ le_rfl hq
          have hqnl : q ∉ l.map Prod.fst := by
            have := List.of_mem_filter hql
            simpa using this
          have hqp : ¬ (p = q) := fun hh => hqnl (hh ▸ hp)
          rw [valuesUnder_cons]
          simp [hqp]
      · rw [addAssoc_notMem l p h hp]
        have hnd2 : ((l ++ [(p, [h])]).map Prod.fst).Nodup := by
          rw [List.map_append]
          rw [List.nodup_append]
          refine ⟨hnd, List.nodup_singleton p, ?_⟩
          intro a ha hb
          simp only [List.map_cons, List.map_nil, List.mem_singleton] at hb
          subst hb
          exact hp ha
        rw [ih _ hnd2]
        rw [List.map_append, List.append_assoc]
        congr 1
        · apply List.map_congr_left
          intro kv hkv
          have hne : ¬ (p = kv.fst) := by
            intro he
            exact hp (he ▸ List.mem_map_of_mem Prod.fst hkv)
          rw [valuesUnder_cons]
          simp [hne]
        · have hmc : (((p, h) :: rest).map Prod.fst).filter
              (fun q => decide (q ∉ l.map Prod.fst))
              = p :: ((rest.map Prod.fst).filter (fun q => decide (q ∉ l.map Prod.fst))) := by
            simp [hp]
          rw [hmc, firstOccur]
          rw [List.map_cons]
          have hhead : valuesUnder ((p, h) :: rest) p = [h] ++ valuesUnder rest p := by
            rw [valuesUnder_cons]
            simp
          have hfeq : ((rest.map Prod.fst).filter
                (fun q => decide (q ∉ l.map Prod.fst))).filter (fun y => !(y == p))
              = (rest.map Prod.fst).filter
                (fun q => decide (q ∉ (l ++ [(p, [h])]).map Prod.fst)) := by
            rw [List.filter_filter]
            apply List.filter_congr
            intro q _
            by_cases h1 : q = p <;> by_cases h2 : q ∈ l.map Prod.fst <;>
              simp [h1, h2, List.map_append]
          simp only [List.map_cons, List.map_nil] at hhead ⊢
          rw [hfeq]
          have htail : ∀ q ∈ firstOccur ((rest.map Prod.fst).filter
                (fun q => decide (q ∉ (l ++ [(p, [h])]).map Prod.fst))),
              (fun p2 => (p2, valuesUnder ((p, h) :: rest) p2)) q
                = (fun p2 => (p2, valuesUnder rest p2)) q := by
            intro q hq
            have hql := mem_of_mem_firstOccur _ _ le_rfl hq
            have hqnl : q ∉ (l ++ [(p, [h])]).map Prod.fst := by
              have := List.of_mem_filter hql
              simpa using this
            have hqp : ¬ (p = q) := by
              intro hh
              apply hqnl
              rw [List.map_append, ← hh]
              simp
            simp only []
            rw [valuesUnder_cons]
            simp [hqp]
          rw [List.map_congr_left htail]
          rw [hhead]
          rfl

/-- The prefix-matching fold, characterised. -/
theorem preMatches_foldl (t : String) (l : List (String × List Nat)) :
    ∀ (init : List Nat),
    l.foldl (fun acc kv => if strStartsWith t kv.fst then acc ++ kv.snd else acc) init
      = init ++ (l.map (fun kv => if strStartsWith t kv.fst then kv.snd else [])).flatten := by
  induction l with
  | nil => intro init; simp
  | cons kv rest ih =>
      intro init
      rw [List.foldl_cons]
      cases hm : strStartsWith t kv.fst <;> simp [hm, ih, List.append_assoc]

theorem applyScript_exactH (s : List Reg) :
    ∀ b : Bus, (s.foldl applyReg b).exactH =
      (exactRegs s).foldl (fun l ph => addAssoc l ph.fst ph.snd) b.exactH := by
  induction s with
  | nil => intro b; rfl
  | cons r rest ih =>
      intro b
      cases r with
      | exa t h => simp [exactRegs, List.filterMap_cons, applyReg, Bus.on, ih]
      | pre p h => simp [exactRegs, List.filterMap_cons, applyReg, Bus.onPre, ih]
      | all h => simp [exactRegs, List.filterMap_cons, applyReg, Bus.onAll, ih]

theorem applyScript_preH (s : List Reg) :
    ∀ b : Bus, (s.foldl applyReg b).preH =
      (preRegs s).foldl (fun l ph => addAssoc l ph.fst ph.snd) b.preH := by
  induction s with
  | nil => intro b; rfl
  | cons r rest ih =>
      intro b
      cases r with
      | exa t h => simp [preRegs, List.filterMap_cons, applyReg, Bus.on, ih]
      | pre p h => simp [preRegs, List.filterMap_cons, applyReg, Bus.onPre, ih]
      | all h => simp [preRegs, List.filterMap_cons, applyReg, Bus.onAll, ih]

theorem applyScript_allH (s : List Reg) :
    ∀ b : Bus, (s.foldl applyReg b).allH = b.allH ++ allRegs s := by
  induction s with
  | nil => intro b; simp [allRegs]
  | cons r rest ih =>
      intro b
      cases r with
      | exa t h => simp [allRegs, List.filterMap_cons, applyReg, Bus.on, ih]
      | pre p h => simp [allRegs, List.filterMap_cons, applyReg, Bus.onPre, ih]
      | all h => simp [allRegs, List.filterMap_cons, applyReg, Bus.onAll, ih]

theorem lookupAssoc_buildAssoc (prs : List (String × Nat)) (t : String) :
    lookupAssoc (buildAssoc prs) t = valuesUnder prs t := by
  induction prs using List.reverseRecOn with
  | nil => rfl
  | append_singleton prs ph ih =>
      rcases ph with ⟨k, h⟩
      have hb : buildAssoc (prs ++ [(k, h)]) = addAssoc (buildAssoc prs) k h := by
        rw [buildAssoc, List.foldl_append]
        rfl
      have hv : valuesUnder (prs ++ [(k, h)]) t
          = valuesUnder prs t ++ (if k = t then [h] else []) := by
        rw [valuesUnder, valuesUnder, List.filterMap_append]
        congr 1
        simp only [List.filterMap_cons, List.filterMap_nil]
        by_cases hkt : k = t <;> simp [hkt]
      rw [hb, lookupAssoc_addAssoc, ih, hv]
      by_cases ht : t = k
      · subst ht
        simp
      · have hkt : ¬ (k = t) := fun hh => ht hh.symm
        simp [ht, hkt]

/-- Claim C7 (amended): for every registration history and every emit, the
handler order is: exact-match handlers of the event's type in
registration order; then the prefix handlers grouped by prefix string —
prefixes in order of their first registration, and within one prefix in
registration order — keeping only groups whose prefix matches; then the
all-handlers in registration order.  (The frozen claim's "registration
order regardless of which prefix string" fails: see the counterexample.) -/
theorem c7_amended (s : List Reg) (t : String) :
    emitOrder (applyScript s) t =
      valuesUnder (exactRegs s) t
      ++ ((firstOccur ((preRegs s).map Prod.fst)).map
            (fun p => if strStartsWith t p then valuesUnder (preRegs s) p else [])).flatten
      ++ allRegs s := by
  have he : (applyScript s).exactH = buildAssoc (exactRegs s) := applyScript_exactH s emptyBus
  have hpq : (applyScript s).preH = buildAssoc (preRegs s) := applyScript_preH s emptyBus
  have ha : (applyScript s).allH = allRegs s := by
    rw [applyScript, applyScript_allH s emptyBus]
    rfl
  rw [emitOrder] at *
  rw [show applyScript s = applyScript s from rfl] at *
  rw [he, hpq, ha, lookupAssoc_buildAssoc]
  congr 1
  congr 1
  have hg := buildAssoc_grouped (preRegs s) [] (by simp)
  rw [buildAssoc] at hpq ⊢
  rw [hg]
  have hfil : ((preRegs s).map Prod.fst).filter
      (fun p => decide (p ∉ ([] : List (String × List Nat)).map Prod.fst))
      = (preRegs s).map Prod.fst := by
    apply List.filter_eq_self.mpr
    intro a _
    simp
  rw [hfil]
  simp only [List.map_nil, List.nil_append]
  rw [preMatches, preMatches_foldl]
  rw [List.map_map]
  simp only [List.nil_append]
  rfl

/-! ## Prompt builder (`application/prompt_builder.py`, `domain/models/context.py`)

The `EnvironmentSnapshot` argument of `build` is consumed only through
`to_prompt_text()`, so it is carried here as the rendered text
(`none` = no snapshot passed). -/

/-- `SectionCategory`, in declaration (= render) order. -/
inductive SectionCategory where
  | identity
  | knowledge
  | experience
  | environment
  | workflow_strategy
  | tool_reference
  | rules
  | error_handling
deriving DecidableEq, Repr

/-- The enum's position, `cat_index` (every category is in the dict, so the
`.get(…, 99)` default is dead). -/
def catIndex : SectionCategory → Nat
  | .identity => 0
  | .knowledge => 1
  | .experience => 2
  | .environment => 3
  | .workflow_strategy => 4
  | .tool_reference => 5
  | .rules => 6
  | .error_handling => 7

/-- The `str`-enum value of a category. -/
def categoryValue : SectionCategory → String
  | .identity => "identity"
  | .knowledge => "knowledge"
  | .experience => "experience"
  | .environment => "environment"
  | .workflow_strategy => "workflow_strategy"
  | .tool_reference => "tool_reference"
  | .rules => "rules"
  | .error_handling => "error_handling"

structure ContextSection where
  name : String
  category : SectionCategory
  content : String
  priority : Int := 0
  token_estimate : Nat := 0
deriving DecidableEq, Repr

structure IntentResult where
  topics : List String := []
  environment_needed : Bool := true
  suggested_sections : List String := []
  knowledge_tags : List String := []
deriving DecidableEq, Repr

/-- `_ALWAYS_INCLUDE`. -/
def ALWAYS_INCLUDE : List SectionCategory := [.identity, .workflow_strategy, .rules]

/-- `_KNOWLEDGE_INCLUDE`. -/
def KNOWLEDGE_INCLUDE : List SectionCategory := [.knowledge]

/-- Contiguous-occurrence test on character lists. -/
def listInfix (sub : List Char) : List Char → Bool
  | [] => sub.isEmpty
  | c :: rest => sub.isPrefixOf (c :: rest) || listInfix sub rest

/-- Python's `in` on strings: substring test. -/
def strContains (s sub : String) : Bool :=
  listInfix sub.data s.data

/-- `PromptBuilder.register_section` on the registry's value list (a dict's
values in key order): compute the lazy token estimate, then replace the
same-named entry in place or append. -/
def registerSection (secs : List ContextSection) (s : ContextSection) : List ContextSection :=
  let s2 := if s.token_estimate = 0 then { s with token_estimate := estimate_tokens s.content } else s
  if secs.any (fun x => x.name == s2.name) then
    secs.map (fun x => if x.name == s2.name then s2 else x)
  else secs ++ [s2]

/-- The injected environment section. -/
def envSection (env_text : String) : ContextSection :=
  { name := "environment", category := .environment, content := env_text,
    priority := 0, token_estimate := estimate_tokens env_text }

/-- The injected canvas section. -/
def canvasSection (canvas : String) : ContextSection :=
  { name := "canvas", category := .environment, content := canvas,
    priority := 1, token_estimate := estimate_tokens canvas }

/-- The sort key comparison `(cat_index, priority)` (lexicographic `≤`). -/
def keyLe (a b : ContextSection) : Bool :=
  (catIndex a.category < catIndex b.category)
    || ((catIndex a.category == catIndex b.category) && a.priority ≤ b.priority)

/-- Stable insertion: before the first element it is `≤`. -/
def insertSorted (x : ContextSection) : List ContextSection → List ContextSection
  | [] => [x]
  | y :: rest => if keyLe x y then x :: y :: rest else y :: insertSorted x rest

/-- Python's `list.sort(key=…)` is stable; a stable sort's output is
uniquely determined, so insertion sort denotes the same function. -/
def stableSort (l : List ContextSection) : List ContextSection :=
  l.foldr insertSorted []

/-- The keep-walking loop of `_apply_budget`: skip a section when adding it
would exceed the budget, keep accumulating otherwise. -/
def budgetGo (budget : Nat) : List ContextSection → Nat → List ContextSection
  | [], _ => []
  | s :: rest, running =>
      if budget < running + s.token_estimate then budgetGo budget rest running
      else s :: budgetGo budget rest (running + s.token_estimate)

/-- `PromptBuilder._apply_budget`. -/
def applyBudget (budget : Nat) (secs : List ContextSection) : List ContextSection :=
  if (secs.map (fun s => s.token_estimate)).sum ≤ budget then secs
  else budgetGo budget secs 0

/-- Steps 1–5 of `PromptBuilder.build`: collect, inject environment and
canvas, filter by intent (always-include and knowledge categories, the
suggested names/category values, the knowledge-tag substring filter, the
experience re-add, the environment drop), sort by `(category, priority)`,
enforce the token budget. -/
def survivingSections (secs : List ContextSection) (intent : Option IntentResult)
    (env_text : Option String) (canvas_summary : String) (token_budget : Nat) :
    List ContextSection :=
  let s1 := match env_text with
    | some e => (secs.filter (fun s => !(s.name == "environment"))) ++ [envSection e]
    | none => secs
  let s2 := if canvas_summary.data.any (fun c => !(c.isWhitespace)) then
      (s1.filter (fun s => !(s.name == "canvas"))) ++ [canvasSection canvas_summary]
    else s1
  let s3 := match intent with
    | some ir =>
        let suggested := ir.suggested_sections
        let tags := ir.knowledge_tags.map (fun t2 => t2.toLower)
        let f1 := s2.filter (fun s =>
          ALWAYS_INCLUDE.contains s.category
            || KNOWLEDGE_INCLUDE.contains s.category
            || suggested.contains s.name
            || suggested.contains (categoryValue s.category))
        let f2 := if tags.isEmpty then f1
          else f1.filter (fun s =>
            !(s.category == SectionCategory.knowledge)
              || tags.any (fun tag => strContains s.name.toLower tag))
        let all_exp := secs.filter (fun s => s.category == SectionCategory.experience)
        let existing := f2.map (fun s => s.name)
        let f3 := f2 ++ all_exp.filter (fun e => !(existing.contains e.name))
        if !ir.environment_needed then
          f3.filter (fun s => !(s.category == SectionCategory.environment))
        else f3
    | none => s2
  applyBudget token_budget (stableSort s3)

/-- Step 6 of `PromptBuilder.build`: render, with the fallback string for
an empty section list. -/
def build (secs : List ContextSection) (intent : Option IntentResult)
    (env_text : Option String) (canvas_summary : String) (token_budget : Nat) : String :=
  let surviving := survivingSections secs intent env_text canvas_summary token_budget
  if surviving.isEmpty then "You are a ComfyUI assistant."
  else String.intercalate "\n\n" (surviving.map (fun s => s.content))

/-! ## Claim C9: rendering and fallback -/

/-- Claim C9, counterexample: with no registered sections the fallback is
the string `"You are a ComfyUI assistant."`, not `"You are an
assistant."` as claimed. -/
theorem c9_counterexample :
    build [] none none "" 12000 = "You are a ComfyUI assistant." ∧
    build [] none none "" 12000 ≠ "You are an assistant." := by
  constructor
  · rfl
  · decide

theorem intercalate_go_foldl (s : String) :
    ∀ (as : List String) (acc : String),
    String.intercalate.go acc s as = as.foldl (fun acc2 x => acc2 ++ s ++ x) acc := by
  intro as
  induction as with
  | nil => intro acc; rfl
  | cons a rest ih =>
      intro acc
      rw [String.intercalate.go, List.foldl_cons, ih]

theorem intercalate_cons_foldl (s c : String) (cs : List String) :
    String.intercalate s (c :: cs) = cs.foldl (fun acc x => acc ++ s ++ x) c := by
  rw [String.intercalate, intercalate_go_foldl]

/-- Claim C9 (amended): `PromptBuilder.build` joins the contents of the
surviving sections with exactly one `"\n\n"` between consecutive
contents (the fold that appends `"\n\n" ++ next` for each further
section), and when no sections survive filtering and budget enforcement
it returns exactly `"You are a ComfyUI assistant."` (not
`"You are an assistant."`). -/
theorem c9_amended (secs : List ContextSection) (intent : Option IntentResult)
    (env_text : Option String) (canvas_summary : String) (token_budget : Nat) :
    (∀ c cs,
      (survivingSections secs intent env_text canvas_summary token_budget).map
          (fun s => s.content) = c :: cs →
      build secs intent env_text canvas_summary token_budget
        = cs.foldl (fun acc x => acc ++ "\n\n" ++ x) c)
    ∧ (survivingSections secs intent env_text canvas_summary token_budget = [] →
      build secs intent env_text canvas_summary token_budget
        = "You are a ComfyUI assistant.") := by
  constructor
  · intro c cs hmap
    rw [build]
    have hne : (survivingSections secs intent env_text canvas_summary token_budget).isEmpty
        = false := by
      cases hsv : survivingSections secs intent env_text canvas_summary token_budget with
      | nil => rw [hsv] at hmap; simp at hmap
      | cons a rest => simp
    rw [hne]
    simp only [Bool.false_eq_true, if_false]
    rw [hmap, intercalate_cons_foldl]
  · intro hempty
    rw [build, hempty]
    rfl

/-- A section for the C9 witness. -/
def c9_sec : ContextSection :=
  { name := "identity", category := .identity, content := "You help.", token_estimate := 3 }

/-- Witness for `c9_amended`: the one-section builder renders its single
content with no separator; the empty builder falls back. -/
theorem c9_amended_witness :
    build [c9_sec] none none "" 12000
      = List.foldl (fun acc x => acc ++ "\n\n" ++ x) "You help." []
    ∧ build [] none none "" 0 = "You are a ComfyUI assistant." :=
  ⟨(c9_amended [c9_sec] none none "" 12000).1 "You help." [] (by decide),
   (c9_amended [] none none "" 0).2 (by decide)⟩

/-! ## Claim C10: `prepare_messages` does not mutate the caller's objects

To state a frame property the context manager is re-embedded with an
explicit object heap: message dicts and content-block items live at
addresses, a message's block list holds item addresses, and every dict
the Python code *creates* (`{**block, …}`, `{**msg, …}`) is a fresh
allocation, while every dict it reuses keeps its address.  The caller's
message list itself is a Lean value (the code only slices it, producing
new lists).  The claim is then: no address that existed before the call
is remapped. -/

/-- A message's content in the heap model: the block list holds item
addresses. -/
inductive HContent where
  | str (s : String)
  | blocks (addrs : List Nat)
  | other (s : String)
deriving DecidableEq, Repr

structure HMsg where
  role : Option String := none
  content : Option HContent := none
deriving DecidableEq, Repr

/-- A heap object: a message dict or a content-list item (a plain string
or a block dict, reusing `ContentItem`). -/
inductive HObj where
  | msg (m : HMsg)
  | item (it : ContentItem)
deriving DecidableEq, Repr

structure Heap where
  next : Nat
  mem : Nat → Option HObj

/-- Allocate a fresh object; existing addresses are untouched. -/
def Heap.alloc (h : Heap) (o : HObj) : Heap × Nat :=
  ({ next := h.next + 1,
     mem := fun a => if a = h.next then some o else h.mem a }, h.next)

def Heap.readMsg (h : Heap) (a : Nat) : Option HMsg :=
  match h.mem a with
  | some (.msg m) => some m
  | _ => none

def Heap.readItem (h : Heap) (a : Nat) : Option ContentItem :=
  match h.mem a with
  | some (.item it) => some it
  | _ => none

/-- One block of `_compact_tool_results` in the heap model: an oversized
string-content `tool_result` dict is replaced by a **fresh** dict
(`{**block, "content": …}`); everything else keeps its address.  An
address that does not hold an item cannot arise in a run of the program
and is kept unchanged. -/
def compactItemH (maxChars : Nat) (h : Heap) (a : Nat) : Heap × Nat × Bool :=
  match h.readItem a with
  | some (.dict b) =>
      match b.content with
      | some c =>
          if b.type = some "tool_result" ∧ maxChars < c.length then
            let r := h.alloc (.item (.dict { b with content := some (truncatedContent c) }))
            (r.fst, r.snd, true)
          else (h, a, false)
      | none => (h, a, false)
  | _ => (h, a, false)

/-- The `new_blocks` loop in the heap model. -/
def compactBlocksH (maxChars : Nat) : List Nat → Heap → Heap × List Nat × Bool
  | [], h => (h, [], false)
  | a :: rest, h =>
      let r1 := compactItemH maxChars h a
      let r2 := compactBlocksH maxChars rest r1.fst
      (r2.fst, r1.snd.fst :: r2.snd.fst, r1.snd.snd || r2.snd.snd)

/-- One old message in the heap model: only when some block changed is a
fresh message dict (`{**msg, "content": new_blocks}`) allocated. -/
def compactMsgH (maxChars : Nat) (h : Heap) (a : Nat) : Heap × Nat :=
  match h.readMsg a with
  | some m =>
      match m.content with
      | some (.blocks baddrs) =>
          let r := compactBlocksH maxChars baddrs h
          if r.snd.snd then
            let r2 := r.fst.alloc (.msg { m with content := some (.blocks r.snd.fst) })
            (r2.fst, r2.snd)
          else (r.fst, a)
      | _ => (h, a)
  | none => (h, a)

/-- The enumeration loop of `_compact_tool_results` in the heap model. -/
def compactGoH (maxChars cutoff : Nat) : List (Nat × Nat) → Heap → Heap × List Nat
  | [], h => (h, [])
  | (i, a) :: rest, h =>
      if cutoff ≤ i then
        let r := compactGoH maxChars cutoff rest h
        (r.fst, a :: r.snd)
      else
        let r1 := compactMsgH maxChars h a
        let r2 := compactGoH maxChars cutoff rest r1.fst
        (r2.fst, r1.snd :: r2.snd)

def compactH (keep_recent maxChars : Nat) (h : Heap) (addrs : List Nat) : Heap × List Nat :=
  compactGoH maxChars (addrs.length - keep_recent) addrs.enum h

/-- `_content_text` reading through the heap (no mutation). -/
def contentTextH (h : Heap) : Option HContent → String
  | some (.str s) => s
  | some (.blocks addrs) =>
      String.intercalate " " (addrs.map (fun a =>
        match h.readItem a with
        | some it => itemText it
        | none => ""))
  | some (.other s) => s
  | none => ""

/-- `estimate_messages_tokens` reading through the heap. -/
def estimateMsgsH (h : Heap) (addrs : List Nat) : Nat :=
  addrs.foldl (fun total a =>
    total + 4 + estimate_tokens (contentTextH h
      (match h.readMsg a with | some m => m.content | none => none))) 0

/-- The `_emergency_trim` scan step in the heap model. -/
def userMsgScanH (h : Heap) (a : Nat) : ScanRes :=
  match h.readMsg a with
  | some m =>
      if m.role ≠ some "user" then .skip
      else
        match m.content with
        | some (.str _) => .take
        | some (.blocks []) => .skip
        | some (.blocks (b :: _)) =>
            match h.readItem b with
            | some (.dict blk) => if blk.type ≠ some "tool_result" then .take else .skip
            | some (.str _) => .crash
            | none => .skip
        | some (.other _) => .skip
        | none => .skip
  | none => .skip

def emTrimGoH (h : Heap) : List Nat → Except Unit (Option (List Nat))
  | [] => .ok none
  | a :: rest =>
      match emTrimGoH h rest with
      | .error e => .error e
      | .ok (some suf) => .ok (some suf)
      | .ok none =>
          match userMsgScanH h a with
          | .take => .ok (some (a :: rest))
          | .skip => .ok none
          | .crash => .error ()

/-- `_emergency_trim` in the heap model (pure slicing — no allocation). -/
def emergencyTrimH (h : Heap) (addrs : List Nat) : Except Unit (List Nat) :=
  match emTrimGoH h addrs with
  | .error e => .error e
  | .ok (some suf) => .ok suf
  | .ok none => .ok (addrs.drop (addrs.length - 2))

/-- `prepare_messages` in the heap model.  The heap is returned in every
case (including the raising one, whose mutations up to the raise — none —
persist). -/
def prepareH (hb : Int) (h : Heap) (addrs : List Nat) : Heap × Except Unit (List Nat) :=
  if (estimateMsgsH h addrs : Int) ≤ hb then (h, .ok addrs)
  else
    let r := compactH 6 500 h addrs
    if (estimateMsgsH r.fst r.snd : Int) ≤ hb then (r.fst, .ok r.snd)
    else (r.fst, emergencyTrimH r.fst r.snd)

/-- Heap extension: all old addresses keep their objects. -/
def heapLe (h1 h2 : Heap) : Prop :=
  h1.next ≤ h2.next ∧ ∀ a, a < h1.next → h2.mem a = h1.mem a

theorem heapLe_refl (h : Heap) : heapLe h h :=
  ⟨le_rfl, fun _ _ => rfl⟩

theorem heapLe_trans {h1 h2 h3 : Heap} (g1 : heapLe h1 h2) (g2 : heapLe h2 h3) :
    heapLe h1 h3 :=
  ⟨g1.1.trans g2.1, fun a ha => (g2.2 a (lt_of_lt_of_le ha g1.1)).trans (g1.2 a ha)⟩

theorem alloc_heapLe (h : Heap) (o : HObj) : heapLe h (h.alloc o).fst := by
  refine ⟨Nat.le_succ _, fun a ha => ?_⟩
  simp only [Heap.alloc]
  rw [if_neg (by omega)]

theorem compactItemH_le (maxChars : Nat) (h : Heap) (a : Nat) :
    heapLe h (compactItemH maxChars h a).fst := by
  rw [compactItemH]
  repeat' split
  all_goals first
    | exact alloc_heapLe h _
    | exact heapLe_refl h

theorem compactBlocksH_le (maxChars : Nat) :
    ∀ (addrs : List Nat) (h : Heap), heapLe h (compactBlocksH maxChars addrs h).fst := by
  intro addrs
  induction addrs with
  | nil => intro h; exact heapLe_refl h
  | cons a rest ih =>
      intro h
      exact heapLe_trans (compactItemH_le maxChars h a) (ih _)

theorem compactMsgH_le (maxChars : Nat) (h : Heap) (a : Nat) :
    heapLe h (compactMsgH maxChars h a).fst := by
  rw [compactMsgH]
  repeat' split
  all_goals try exact heapLe_refl h
  all_goals dsimp only
  all_goals split
  all_goals first
    | exact heapLe_trans (compactBlocksH_le maxChars _ h) (alloc_heapLe _ _)
    | exact compactBlocksH_le maxChars _ h

theorem compactGoH_le (maxChars cutoff : Nat) :
    ∀ (l : List (Nat × Nat)) (h : Heap), heapLe h (compactGoH maxChars cutoff l h).fst := by
  intro l
  induction l with
  | nil => intro h; exact heapLe_refl h
  | cons ia rest ih =>
      intro h
      rcases ia with ⟨i, a⟩
      rw [compactGoH]
      by_cases hcut : cutoff ≤ i
      · simp only [if_pos hcut]
        exact ih h
      · simp only [if_neg hcut]
        exact heapLe_trans (compactMsgH_le maxChars h a) (ih _)

/-- Claim C10: `prepare_messages` leaves every pre-existing message dict
and content block unchanged — the heap after the call agrees with the
heap before it on every address allocated before the call (compaction
only allocates fresh dicts; trimming only slices). -/
theorem c10_prepare_no_mutation (hb : Int) (h : Heap) (addrs : List Nat) (a : Nat)
    (ha : a < h.next) :
    (prepareH hb h addrs).fst.mem a = h.mem a := by
  rw [prepareH]
  split
  · rfl
  · have hle : heapLe h (compactH 6 500 h addrs).fst := compactGoH_le 500 _ addrs.enum h
    dsimp only
    split
    · exact hle.2 a ha
    · exact hle.2 a ha

/-- A two-object heap for the C10 witness: one user message whose content
list references one oversized `tool_result` block. -/
def c10_heap : Heap :=
  { next := 2,
    mem := fun a =>
      if a = 0 then some (.msg { role := some "user", content := some (.blocks [1]) })
      else if a = 1 then
        some (.item (.dict { type := some "tool_result", tool_use_id := some "t1",
                             content := some "0123456789", is_error := some false }))
      else none }

/-- Witness for `c10_prepare_no_mutation`: a negative budget forces both
compaction stages, yet address 1 (the caller's block dict) is unchanged. -/
theorem c10_no_mutation_witness :
    (prepareH (-1) c10_heap [0]).fst.mem 1 = c10_heap.mem 1 :=
  c10_prepare_no_mutation (-1) c10_heap [0] 1 (by decide)

end ComfyAgent
